import Mathlib

/-!
Verification development for the ICE agent core of the str0m repository.

The agent logic is translated from `src/ice/agent.rs`. The value types it
uses (`Candidate` from candidate.rs, `CandidatePair` from pair.rs and
`StunMessage` from stun.rs) are not part of the provided sources; those
definitions are modelled from the specification and are marked
`Modelled from the spec:` in their doc comments.

Conventions of the embedding:
- `Instant` and `Duration` are `Nat` milliseconds.
- Rust `u32` arithmetic is modelled with `Nat`; the one subtraction in
  local-preference assignment is truncated `Nat` subtraction, and theorems
  that depend on it carry a no-underflow hypothesis.
- Code paths on which the Rust code panics (`expect`, `unwrap`, the config
  fault abort) are modelled by returning `none`; all entry points that can
  reach a panic return `Option IceAgent`.
- Random values (ufrag, password, transaction ids) are threaded explicitly:
  the agent constructor takes the generated credentials, and transaction
  ids come from a counter `nextTransId`, modelling the freshness of the
  random 96-bit ids.
-/

/-- Transport address. Only the address family and identity matter to the
agent logic, so an address is a family flag plus an abstract identifier
(covering ip and port). -/
structure SocketAddr where
  isV6 : Bool
  id : Nat
  deriving DecidableEq, Repr

/-- Modelled from the spec: candidate kinds (RFC 8445). -/
inductive CandidateKind where
  | Host
  | PeerReflexive
  | ServerReflexive
  | Relayed
  deriving DecidableEq, Repr

/-- Modelled from the spec: the RFC 5245/8445 recommended type preferences
used in the candidate priority formula (host 126, prflx 110, srflx 100,
relay 0). The spec gives the formula `2^24 * type_pref + 2^8 * local_pref
+ (256 - component_id)`; only the relative order of the kinds matters to
the agent logic. -/
def CandidateKind.typePref : CandidateKind → Nat
  | .Host => 126
  | .PeerReflexive => 110
  | .ServerReflexive => 100
  | .Relayed => 0

/-- Modelled from the spec: a candidate value (candidate.rs is not among
the provided sources). `fixedPrio` models the explicitly stored priority
of signalled remote candidates and of `Candidate::peer_reflexive` (which
takes the priority as an argument in agent.rs); when it is `none` the
priority is computed from the kind and the assigned local preference, as
the comment in `add_local_candidate` requires. -/
structure Candidate where
  kind : CandidateKind
  addr : SocketAddr
  base : SocketAddr
  raddr : Option SocketAddr := none
  componentId : Nat := 1
  foundation : String := ""
  localPref : Option Nat := none
  fixedPrio : Option Nat := none
  discarded : Bool := false
  deriving DecidableEq, Repr

/-- Modelled from the spec: RFC 5245 priority with a given kind's type
preference. An unassigned local preference defaults to 65535 (RFC 5245:
with a single address the value SHOULD be 65535). -/
def Candidate.prioOfKind (c : Candidate) (k : CandidateKind) : Nat :=
  2 ^ 24 * k.typePref + 2 ^ 8 * c.localPref.getD 65535 + (256 - c.componentId)

/-- Modelled from the spec: the candidate priority; an explicitly stored
priority (signalled or peer-reflexive) wins over the computed one. -/
def Candidate.prio (c : Candidate) : Nat :=
  match c.fixedPrio with
  | some p => p
  | none => c.prioOfKind c.kind

/-- Modelled from the spec: the priority this candidate would have if its
kind were PeerReflexive. -/
def Candidate.prioPrflx (c : Candidate) : Nat :=
  c.prioOfKind CandidateKind.PeerReflexive

/-- Modelled from the spec: a host candidate (addr = base). -/
def Candidate.host (addr : SocketAddr) : Candidate :=
  { kind := CandidateKind.Host, addr := addr, base := addr }

/-- Modelled from the spec: `Candidate::peer_reflexive(addr, base, prio,
foundation)` as called from agent.rs. -/
def Candidate.peerReflexive (addr base : SocketAddr) (prio : Nat)
    (foundation : Option String) : Candidate :=
  { kind := CandidateKind.PeerReflexive, addr := addr, base := base,
    fixedPrio := some prio, foundation := foundation.getD "" }

/-- Modelled from the spec: candidate pair check states. -/
inductive CheckState where
  | Waiting
  | InProgress
  | Succeeded
  | Failed
  deriving DecidableEq, Repr

/-- Modelled from the spec: an outstanding binding attempt (transaction id
plus send time). Transaction ids are abstracted to `Nat`. -/
structure BindingAttempt where
  transId : Nat
  sentTime : Nat
  deriving DecidableEq, Repr

/-- STUN timeout. Modelled from the spec: RFC 5389 default of 39.5 s. -/
def STUN_TIMEOUT : Nat := 39500

/-- Modelled from the spec: a candidate pair (pair.rs is not among the
provided sources). Identified by indices into the agent's candidate
vectors; carries probe state. -/
structure CandidatePair where
  localIdx : Nat
  remoteIdx : Nat
  prio : Nat
  state : CheckState := CheckState.Waiting
  attempts : List BindingAttempt := []
  attemptCount : Nat := 0
  rtt : Option Nat := none
  remoteBindingRequests : Nat := 0
  nominated : Bool := false
  validIdx : Option Nat := none
  deriving DecidableEq, Repr

/-- Modelled from the spec: a fresh pair in Waiting state. -/
def CandidatePair.new (l r prio : Nat) : CandidatePair :=
  { localIdx := l, remoteIdx := r, prio := prio }

/-- Modelled from the spec: `pair_prio = 2^32 * min(G,D) + 2 * max(G,D) +
(G>D ? 1 : 0)` with G the controlling-side and D the controlled-side
priority. In agent.rs the call is
`calculate_prio(self.controlling, remote.prio(), local.prio())`. -/
def CandidatePair.calculatePrio (controlling : Bool) (remotePrio localPrio : Nat) : Nat :=
  let g := if controlling then localPrio else remotePrio
  let d := if controlling then remotePrio else localPrio
  2 ^ 32 * min g d + 2 * max g d + (if d < g then 1 else 0)

/-- Modelled from the spec: reserve a fresh transaction id, record the send
time, bump the retry counter, transition Waiting to InProgress. -/
def CandidatePair.newAttempt (p : CandidatePair) (now tid : Nat) : CandidatePair :=
  { p with
    attempts := ⟨tid, now⟩ :: p.attempts,
    attemptCount := p.attemptCount + 1,
    state := if p.state = CheckState.Waiting then CheckState.InProgress else p.state }

/-- Modelled from the spec: whether a transaction id belongs to this pair. -/
def CandidatePair.hasBindingAttempt (p : CandidatePair) (tid : Nat) : Bool :=
  p.attempts.any (fun a => a.transId == tid)

/-- Modelled from the spec: compute the RTT, store the valid local index,
transition to Succeeded. -/
def CandidatePair.recordBindingResponse (p : CandidatePair) (now tid validIdx : Nat) :
    CandidatePair :=
  { p with
    state := CheckState.Succeeded,
    validIdx := some validIdx,
    rtt := (p.attempts.find? (fun a => a.transId == tid)).map (fun a => now - a.sentTime) }

/-- Modelled from the spec: the instant the next probe should fire. With no
prior attempt it is `now`; otherwise the last send time plus an
exponential backoff (RTO 500 ms) bounded by `STUN_TIMEOUT`. -/
def CandidatePair.nextBindingAttempt (p : CandidatePair) (now : Nat) : Nat :=
  match p.attempts with
  | [] => now
  | a :: _ => a.sentTime + min (500 * 2 ^ (p.attemptCount - 1)) STUN_TIMEOUT

/-- Modelled from the spec: a pair stays possible until it exhausts its
retry budget (7 retries) without succeeding. -/
def CandidatePair.isStillPossible (p : CandidatePair) (_now : Nat) : Bool :=
  p.state == CheckState.Succeeded || decide (p.attemptCount < 8)

/-- Modelled from the spec: increment the remote-binding-request counter. -/
def CandidatePair.increaseRemoteBindingRequests (p : CandidatePair) : CandidatePair :=
  { p with remoteBindingRequests := p.remoteBindingRequests + 1 }

/-- Modelled from the spec: set the one-shot nominated flag. -/
def CandidatePair.nominate (p : CandidatePair) : CandidatePair :=
  { p with nominated := true }

/-- STUN message classes. Modelled from the spec. -/
inductive StunClass where
  | BindingRequest
  | BindingSuccess
  | BindingError
  | Indication
  deriving DecidableEq, Repr

/-- Modelled from the spec: a parsed STUN message (stun.rs is not among
the provided sources). `username` is the USERNAME attribute already split
on the first colon: the first component is the text left of the colon.
`integrityPassword` abstracts HMAC-SHA1: it is the unique password under
which the MESSAGE-INTEGRITY attribute verifies. -/
structure StunMessage where
  cls : StunClass
  transId : Nat
  username : Option (String × String) := none
  prio : Option Nat := none
  useCandidate : Bool := false
  iceControlling : Option Bool := none
  mappedAddress : Option SocketAddr := none
  integrityPassword : String := ""
  deriving DecidableEq, Repr

def StunMessage.isBindingRequest (m : StunMessage) : Bool :=
  m.cls == StunClass.BindingRequest

def StunMessage.isSuccessfulBindingResponse (m : StunMessage) : Bool :=
  m.cls == StunClass.BindingSuccess

def StunMessage.isResponse (m : StunMessage) : Bool :=
  m.cls == StunClass.BindingSuccess || m.cls == StunClass.BindingError

/-- Modelled from the spec: USERNAME split on the first colon, as exposed
by the parser. Returns (left half, right half). -/
def StunMessage.splitUsername (m : StunMessage) : Option (String × String) :=
  m.username

/-- Modelled from the spec: integrity verification against a password. -/
def StunMessage.checkIntegrity (m : StunMessage) (password : String) : Bool :=
  m.integrityPassword == password

/-- Modelled from the spec: a Binding success response carrying
XOR-MAPPED-ADDRESS = source. -/
def StunMessage.reply (transId : Nat) (source : SocketAddr) : StunMessage :=
  { cls := StunClass.BindingSuccess, transId := transId, mappedAddress := some source }

/-- Modelled from the spec: a Binding request with username (given already
split at the colon), priority, role and optional USE-CANDIDATE. -/
def StunMessage.bindingRequest (username : String × String) (transId : Nat)
    (controlling : Bool) (prio : Nat) (useCandidate : Bool) : StunMessage :=
  { cls := StunClass.BindingRequest, transId := transId, username := some username,
    prio := some prio, iceControlling := some controlling, useCandidate := useCandidate }

/-- Modelled from the spec: serialization with MESSAGE-INTEGRITY computed
from the given password. The wire bytes are abstracted by the message
whose integrity attribute verifies under exactly that password. -/
def StunMessage.withIntegrity (m : StunMessage) (password : String) : StunMessage :=
  { m with integrityPassword := password }

/-- An incoming datagram: either a parsed STUN message or something the
agent ignores. -/
inductive Datagram where
  | stun (m : StunMessage)
  | other
  deriving DecidableEq, Repr

structure Receive where
  source : SocketAddr
  destination : SocketAddr
  contents : Datagram
  deriving DecidableEq, Repr

/-- An outgoing datagram. The serialized STUN contents are represented by
the abstract message (see `StunMessage.withIntegrity`). -/
structure Transmit where
  source : SocketAddr
  destination : SocketAddr
  contents : StunMessage
  deriving DecidableEq, Repr

/-- ICE credentials (ufrag and password). -/
structure IceCreds where
  username : String
  password : String
  deriving DecidableEq, Repr

inductive IceConnectionState where
  | New
  | Checking
  | Connected
  | Completed
  | Failed
  | Disconnected
  | Closed
  deriving DecidableEq, Repr

inductive IceAgentEvent where
  | iceConnectionStateChange (s : IceConnectionState)
  | newLocalCandidate (c : Candidate)
  deriving DecidableEq, Repr

/-- An enqueued early STUN request (struct StunRequest in agent.rs). -/
structure StunRequest where
  now : Nat
  source : SocketAddr
  destination : SocketAddr
  transId : Nat
  prio : Nat
  useCandidate : Bool
  remoteUsername : String
  deriving DecidableEq, Repr

/-- Timing advance Ta (50 ms). -/
def TIMING_ADVANCE : Nat := 50

/-- The ICE agent state (struct IceAgent in agent.rs). `nextTransId`
models the random transaction-id source. -/
structure IceAgent where
  lastNow : Option Nat := none
  iceLite : Bool := false
  maxCandidatePairs : Option Nat := none
  localCredentials : IceCreds
  remoteCredentials : Option IceCreds := none
  controlling : Bool := false
  state : IceConnectionState := IceConnectionState.New
  localCandidates : List Candidate := []
  remoteCandidates : List Candidate := []
  candidatePairs : List CandidatePair := []
  transmit : List Transmit := []
  events : List IceAgentEvent := []
  stunServerQueue : List StunRequest := []
  scheduledNominationCheck : Option Nat := none
  nextTransId : Nat := 0
  deriving DecidableEq, Repr

/-- IceAgent::new, with the generated credentials passed explicitly. -/
def IceAgent.new (username password : String) : IceAgent :=
  { localCredentials := ⟨username, password⟩ }

/-- IceAgent::set_remote_credentials. -/
def IceAgent.setRemoteCredentials (a : IceAgent) (r : IceCreds) : IceAgent :=
  { a with remoteCredentials := some r }

/-- IceAgent::set_controlling. -/
def IceAgent.setControlling (a : IceAgent) (v : Bool) : IceAgent :=
  { a with controlling := v }

/-- IceAgent::stun_credentials. The username is returned already split at
the colon (ufrags contain no colon). Returns `none` where the source
panics: the remote credentials are dereferenced unconditionally. -/
def IceAgent.stunCredentials (a : IceAgent) (reply : Bool) :
    Option ((String × String) × String) :=
  match a.remoteCredentials with
  | none => none
  | some peer =>
    let username :=
      if reply then ("not_used", "not_used")
      else (peer.username, a.localCredentials.username)
    let password := if reply then a.localCredentials.password else peer.password
    some (username, password)

/-- IceAgent::accepts_message. `none` models the panics reachable from the
source (the unconditional remote-credentials expect in stun_credentials,
and the username unwrap). -/
def IceAgent.acceptsMessage (a : IceAgent) (m : StunMessage) : Option Bool :=
  let userOk : Option Bool :=
    if m.isBindingRequest then
      match m.splitUsername with
      | none => none
      | some (l, r) =>
        if l != a.localCredentials.username then some false
        else
          match a.remoteCredentials with
          | some rc => if r != rc.username then some false else some true
          | none => some true
    else some true
  match userOk with
  | none => none
  | some false => some false
  | some true =>
    match a.stunCredentials (!m.isResponse) with
    | none => none
    | some (_, password) => some (m.checkIntegrity password)

/-- First index satisfying a predicate (iter().enumerate().find()). -/
def firstIdx (p : α → Bool) : List α → Option Nat
  | [] => none
  | x :: xs => if p x then some 0 else (firstIdx p xs).map (· + 1)

/-- Indices of the elements satisfying a predicate, in order
(iter().enumerate().filter().map(i)). -/
def idxsWhere (p : α → Bool) : List α → List Nat
  | [] => []
  | x :: xs => (if p x then [0] else []) ++ (idxsWhere p xs).map (· + 1)

/-- Replace the first element satisfying the predicate
(iter_mut().find() followed by mutation). -/
def updateFirst (p : α → Bool) (f : α → α) : List α → List α
  | [] => []
  | x :: xs => if p x then f x :: xs else x :: updateFirst p f xs

/-- Index and key of the first minimal element
(Rust Iterator::min_by_key: first minimum wins). -/
def minIdxBy (f : α → Nat) : List α → Option (Nat × Nat)
  | [] => none
  | x :: xs =>
    match minIdxBy f xs with
    | none => some (0, f x)
    | some (j, m) => if f x ≤ m then some (0, f x) else some (j + 1, m)

/-- Candidate lookup through a stored index. The source indexes the vector
directly; indices stored in the pair table are always in bounds for states
produced by the API, so the default is never read there. -/
def candAt (l : List Candidate) (i : Nat) : Candidate :=
  (l.get? i).getD (Candidate.host ⟨false, 0⟩)

/-- Pair lookup through an index (see `candAt`). -/
def pairAt (l : List CandidatePair) (i : Nat) : CandidatePair :=
  (l.get? i).getD (CandidatePair.new 0 0 0)

/-- CandidatePair::local_candidate. -/
def CandidatePair.localCandidate (p : CandidatePair) (l : List Candidate) : Candidate :=
  candAt l p.localIdx

/-- CandidatePair::remote_candidate. -/
def CandidatePair.remoteCandidate (p : CandidatePair) (l : List Candidate) : Candidate :=
  candAt l p.remoteIdx

/-- The redundancy key of a pair: (base of local candidate, addr of remote
candidate). Two pairs are redundant iff their keys coincide. -/
def pkey (locals remotes : List Candidate) (p : CandidatePair) : SocketAddr × SocketAddr :=
  ((p.localCandidate locals).base, (p.remoteCandidate remotes).addr)

/-- Modelled from the spec: total order used by Vec::sort on the pair
table (descending pair priority, ties on (local_idx, remote_idx)). -/
def pairLE (p q : CandidatePair) : Prop :=
  q.prio < p.prio ∨
    (q.prio = p.prio ∧
      (p.localIdx < q.localIdx ∨ (p.localIdx = q.localIdx ∧ p.remoteIdx ≤ q.remoteIdx)))

instance : DecidableRel pairLE := fun p q => by
  unfold pairLE; infer_instance

instance : IsTotal CandidatePair pairLE :=
  ⟨by intro p q; unfold pairLE; omega⟩

instance : IsTrans CandidatePair pairLE :=
  ⟨by intro p q s hpq hqs; unfold pairLE at *; omega⟩

/-- Vec::sort on the candidate pair table. -/
def sortPairs (l : List CandidatePair) : List CandidatePair :=
  List.insertionSort pairLE l

/-- The inner body of IceAgent::form_pairs for one (local, remote) index
pair: scan the checklist for a redundant pair (same local base, same
remote addr); keep the incumbent on higher-or-equal priority, replace it
in place otherwise, and append the new pair when no redundant entry
exists. -/
def installPair (locals remotes : List Candidate) (np : CandidatePair) :
    List CandidatePair → List CandidatePair
  | [] => [np]
  | check :: rest =>
    if pkey locals remotes check == pkey locals remotes np then
      if np.prio ≤ check.prio then check :: rest
      else np :: rest
    else check :: installPair locals remotes np rest

/-- One step of the nested loops in IceAgent::form_pairs. -/
def IceAgent.formPairsStep (a : IceAgent) (localIdx remoteIdx : Nat) : IceAgent :=
  let lc := candAt a.localCandidates localIdx
  let rc := candAt a.remoteCandidates remoteIdx
  let prio := CandidatePair.calculatePrio a.controlling rc.prio lc.prio
  let pair := CandidatePair.new localIdx remoteIdx prio
  { a with candidatePairs := installPair a.localCandidates a.remoteCandidates pair a.candidatePairs }

/-- The inner loop of IceAgent::form_pairs (over remote indices). -/
def IceAgent.formPairsInner (a : IceAgent) (localIdx : Nat) : List Nat → IceAgent
  | [] => a
  | ri :: rs => (a.formPairsStep localIdx ri).formPairsInner localIdx rs

/-- The outer loop of IceAgent::form_pairs (over local indices). -/
def IceAgent.formPairsOuter (a : IceAgent) : List Nat → List Nat → IceAgent
  | [], _ => a
  | li :: ls, rids => ((a.formPairsInner li rids).formPairsOuter ls rids)

/-- IceAgent::form_pairs: install all cross pairs, sort the table, trim
overflow from the low-priority end (the pop loop equals `take max`). -/
def IceAgent.formPairs (a : IceAgent) (localIdxs remoteIdxs : List Nat) : IceAgent :=
  let b := a.formPairsOuter localIdxs remoteIdxs
  let max := b.maxCandidatePairs.getD 100
  { b with candidatePairs := (sortPairs b.candidatePairs).take max }

/-- IceAgent::discard_candidate_pairs. -/
def IceAgent.discardCandidatePairs (a : IceAgent) (localIdx : Nat) : IceAgent :=
  { a with candidatePairs := a.candidatePairs.filter (fun c => c.localIdx != localIdx) }

/-- The per-kind start value of the local preference counter, already
including the IPv4 adjustment (agent.rs lines 297-306). -/
def counterStart (kind : CandidateKind) (isV6 : Bool) : Nat :=
  (match kind with
   | CandidateKind.Host => 65535
   | CandidateKind.PeerReflexive => 49151
   | CandidateKind.ServerReflexive => 32767
   | CandidateKind.Relayed => 16383) - (if isV6 then 0 else 1)

/-- The count of stored local candidates with the same kind and address
family (agent.rs lines 308-314). -/
def sameKindCount (locals : List Candidate) (c : Candidate) : Nat :=
  (locals.filter (fun v => v.kind == c.kind && v.addr.isV6 == c.addr.isV6)).length

/-- The candidate as stored by add_local_candidate: the computed local
preference is written into the candidate before the redundancy scan. -/
def prefAssigned (a : IceAgent) (c : Candidate) : Candidate :=
  { c with localPref := some (counterStart c.kind c.addr.isV6 -
      sameKindCount a.localCandidates c * 2) }

/-- The tail step of IceAgent::add_local_candidate: compute pairing
indices, emit the event, push the candidate, form pairs. -/
def IceAgent.addLocalFinish (a : IceAgent) (c : Candidate) : Bool × IceAgent :=
  let remoteIdxs := idxsWhere (fun v => !v.discarded && v.addr.isV6 == c.addr.isV6)
    a.remoteCandidates
  let a := { a with
    events := a.events ++ [IceAgentEvent.newLocalCandidate c],
    localCandidates := a.localCandidates ++ [c] }
  (true, a.formPairs [a.localCandidates.length - 1] remoteIdxs)

/-- IceAgent::add_local_candidate. -/
def IceAgent.addLocalCandidate (a : IceAgent) (c : Candidate) : Bool × IceAgent :=
  if a.iceLite && !(c.kind == CandidateKind.Host) then (false, a)
  else
    let pref := counterStart c.kind c.addr.isV6 - sameKindCount a.localCandidates c * 2
    let c := { c with localPref := some pref }
    match firstIdx (fun v => v.addr == c.addr && v.base == c.base) a.localCandidates with
    | some idx =>
      let other := candAt a.localCandidates idx
      if c.prio < other.prio then (false, a)
      else
        let a := { a with
          localCandidates := a.localCandidates.set idx { other with discarded := true } }
        (a.discardCandidatePairs idx).addLocalFinish c
    | none => a.addLocalFinish c

/-- IceAgent::add_remote_candidate. -/
def IceAgent.addRemoteCandidate (a : IceAgent) (c : Candidate) : Bool × IceAgent :=
  if !(c.componentId == 1) then (false, a)
  else
    let localIdxs := idxsWhere (fun v => !v.discarded && v.addr.isV6 == c.addr.isV6)
      a.localCandidates
    match firstIdx (fun v =>
        v.foundation == "tmp_prflx" && v.addr == c.addr && v.prio == c.prio &&
        v.kind == CandidateKind.PeerReflexive) a.remoteCandidates with
    | some idx =>
      let a := { a with remoteCandidates := a.remoteCandidates.set idx c }
      (true, a.formPairs localIdxs [idx])
    | none =>
      let ridx := a.remoteCandidates.length
      let a := { a with remoteCandidates := a.remoteCandidates ++ [c] }
      (true, a.formPairs localIdxs [ridx])

/-- IceAgent::invalidate_candidate. -/
def IceAgent.invalidateCandidate (a : IceAgent) (c : Candidate) : Bool × IceAgent :=
  match firstIdx (fun v => v.addr == c.addr && v.base == c.base && v.raddr == c.raddr)
      a.localCandidates with
  | some idx =>
    let other := candAt a.localCandidates idx
    if !other.discarded then
      let a := { a with
        localCandidates := a.localCandidates.set idx { other with discarded := true } }
      (true, a.discardCandidatePairs idx)
    else (false, a)
  | none => (false, a)

/-- IceAgent::set_connection_state. -/
def IceAgent.setConnectionState (a : IceAgent) (s : IceConnectionState) : IceAgent :=
  if a.state != s then
    { a with state := s, events := a.events ++ [IceAgentEvent.iceConnectionStateChange s] }
  else a

/-- Whether a pair is eligible for nomination: Succeeded and has seen at
least one remote binding request. -/
def eligiblePair (p : CandidatePair) : Bool :=
  p.state == CheckState.Succeeded && decide (0 < p.remoteBindingRequests)

/-- Index and priority of the last maximal-priority eligible pair
(Rust Iterator::max_by_key: the last maximum wins). -/
def bestNom : List CandidatePair → Option (Nat × Nat)
  | [] => none
  | p :: ps =>
    match bestNom ps with
    | none => if eligiblePair p then some (0, p.prio) else none
    | some (j, m) =>
      if eligiblePair p && decide (m < p.prio) then some (0, p.prio)
      else some (j + 1, m)

/-- IceAgent::attempt_nomination. -/
def IceAgent.attemptNomination (a : IceAgent) : IceAgent :=
  match bestNom a.candidatePairs with
  | none => a
  | some (i, _) =>
    let p := pairAt a.candidatePairs i
    if p.nominated then a
    else { a with candidatePairs := a.candidatePairs.set i p.nominate }

/-- IceAgent::stun_server_handle_request. `none` models the panics: the
remote-credentials expect, the config-fault expect when the destination
matches no host or relay local candidate, and the post-insert unwrap. -/
def IceAgent.stunServerHandleRequest (a : IceAgent) (now : Nat) (req : StunRequest) :
    Option IceAgent :=
  match a.remoteCredentials with
  | none => none
  | some rc =>
    if req.remoteUsername != rc.username then some a
    else if req.useCandidate && a.controlling then some a
    else
      let (a, remoteIdx) :=
        match firstIdx (fun c => !c.discarded && c.addr == req.source) a.remoteCandidates with
        | some idx => (a, idx)
        | none =>
          let c := Candidate.peerReflexive req.source req.source req.prio (some "tmp_prflx")
          ({ a with remoteCandidates := a.remoteCandidates ++ [c] },
            a.remoteCandidates.length)
      match firstIdx (fun v =>
          (v.kind == CandidateKind.Host || v.kind == CandidateKind.Relayed) &&
            v.addr == req.destination) a.localCandidates with
      | none => none
      | some localIdx =>
        let pairs1 :=
          if a.candidatePairs.any (fun p => p.localIdx == localIdx && p.remoteIdx == remoteIdx)
          then a.candidatePairs
          else
            let lc := candAt a.localCandidates localIdx
            let rcand := candAt a.remoteCandidates remoteIdx
            let prio := CandidatePair.calculatePrio a.controlling rcand.prio lc.prio
            sortPairs (a.candidatePairs ++ [CandidatePair.new localIdx remoteIdx prio])
        let a := { a with candidatePairs := pairs1 }
        match a.candidatePairs.find?
            (fun p => p.localIdx == localIdx && p.remoteIdx == remoteIdx) with
        | none => none
        | some pair0 =>
          let p1 := pair0.increaseRemoteBindingRequests
          let sched1 :=
            if a.controlling && !p1.nominated && p1.state == CheckState.Succeeded &&
                a.scheduledNominationCheck.isNone then
              some (now + TIMING_ADVANCE)
            else a.scheduledNominationCheck
          let a := { a with scheduledNominationCheck := sched1 }
          let p2 :=
            if !a.controlling && req.useCandidate && !p1.nominated then p1.nominate else p1
          let pairs2 := updateFirst
            (fun p => p.localIdx == localIdx && p.remoteIdx == remoteIdx)
            (fun _ => p2) a.candidatePairs
          let a := { a with candidatePairs := pairs2 }
          match a.stunCredentials true with
          | none => none
          | some (_, password) =>
            let lc := candAt a.localCandidates p2.localIdx
            let rcand := candAt a.remoteCandidates p2.remoteIdx
            let reply := (StunMessage.reply req.transId req.source).withIntegrity password
            some { a with transmit := a.transmit ++ [⟨lc.base, rcand.addr, reply⟩] }

/-- The while loop that caps the early-request queue at 100 entries by
popping from the front. -/
def capFront (q : List StunRequest) (max : Nat) : List StunRequest :=
  q.drop (q.length - max)

/-- IceAgent::stun_server_handle_message. `none` models the priority
expect and the username unwrap. -/
def IceAgent.stunServerHandleMessage (a : IceAgent) (now : Nat)
    (source destination : SocketAddr) (m : StunMessage) : Option IceAgent :=
  match m.prio with
  | none => none
  | some prio =>
    match m.splitUsername with
    | none => none
    | some (_, remoteUsername) =>
      let req : StunRequest :=
        { now := now, source := source, destination := destination,
          transId := m.transId, prio := prio, useCandidate := m.useCandidate,
          remoteUsername := remoteUsername }
      if a.remoteCredentials.isSome then a.stunServerHandleRequest now req
      else
        some { a with stunServerQueue := capFront (a.stunServerQueue ++ [req]) 100 }

/-- IceAgent::stun_client_binding_request. -/
def IceAgent.stunClientBindingRequest (a : IceAgent) (now : Nat) (pairIdx : Nat) :
    Option IceAgent :=
  match a.stunCredentials false with
  | none => none
  | some (username, password) =>
    let pair := pairAt a.candidatePairs pairIdx
    let lc := pair.localCandidate a.localCandidates
    let rcand := pair.remoteCandidate a.remoteCandidates
    let prio := lc.prioPrflx
    let useCandidate := a.controlling && pair.nominated
    let tid := a.nextTransId
    let pair2 := pair.newAttempt now tid
    let binding :=
      (StunMessage.bindingRequest username tid a.controlling prio useCandidate).withIntegrity
        password
    some { a with
      nextTransId := tid + 1,
      candidatePairs := a.candidatePairs.set pairIdx pair2,
      transmit := a.transmit ++ [⟨lc.base, rcand.addr, binding⟩] }

/-- IceAgent::stun_client_handle_response. `none` models the
mapped-address expect. -/
def IceAgent.stunClientHandleResponse (a : IceAgent) (now : Nat) (m : StunMessage) :
    Option IceAgent :=
  let tid := m.transId
  match firstIdx (fun p => p.hasBindingAttempt tid) a.candidatePairs with
  | none => some a
  | some pairIdx =>
    match m.mappedAddress with
    | none => none
    | some mapped =>
      let pair := pairAt a.candidatePairs pairIdx
      let (a, validIdx) :=
        match firstIdx (fun c => c.addr == mapped) a.localCandidates with
        | some idx => (a, idx)
        | none =>
          let localSentFrom := pair.localCandidate a.localCandidates
          let c := Candidate.peerReflexive mapped localSentFrom.base localSentFrom.prioPrflx
            none
          ({ a with localCandidates := a.localCandidates ++ [c] }, a.localCandidates.length)
      let p2 := pair.recordBindingResponse now tid validIdx
      let a := { a with candidatePairs := a.candidatePairs.set pairIdx p2 }
      let sched1 :=
        if a.controlling && !p2.nominated && decide (0 < p2.remoteBindingRequests) &&
            a.scheduledNominationCheck.isNone then
          some (now + TIMING_ADVANCE)
        else a.scheduledNominationCheck
      some { a with scheduledNominationCheck := sched1 }

/-- IceAgent::handle_receive. -/
def IceAgent.handleReceive (a : IceAgent) (now : Nat) (receive : Receive) :
    Option IceAgent :=
  match receive.contents with
  | Datagram.other => some a
  | Datagram.stun m =>
    match a.acceptsMessage m with
    | none => none
    | some false => some a
    | some true =>
      if m.isBindingRequest then
        a.stunServerHandleMessage now receive.source receive.destination m
      else if m.isSuccessfulBindingResponse then
        a.stunClientHandleResponse now m
      else some a

/-- The failed-pair sweep and the earliest due probe at the end of
IceAgent::handle_timeout. -/
def IceAgent.handleTimeoutSweep (a : IceAgent) (now : Nat) : Option IceAgent :=
  let a := { a with candidatePairs := a.candidatePairs.filter (fun p => p.isStillPossible now) }
  if a.remoteCredentials.isNone then some a
  else
    match minIdxBy (fun p => p.nextBindingAttempt now) a.candidatePairs with
    | none => some a
    | some (idx, deadline) =>
      if deadline ≤ now then a.stunClientBindingRequest now idx else some a

/-- The tail of IceAgent::handle_timeout after the queued-request block:
nomination check, then the sweep and probe. -/
def IceAgent.handleTimeoutTail (a : IceAgent) (now : Nat) : Option IceAgent :=
  match a.scheduledNominationCheck with
  | some nom =>
    if nom ≤ now then
      some ({ a with scheduledNominationCheck := none }).attemptNomination
    else a.handleTimeoutSweep now
  | none => a.handleTimeoutSweep now

/-- IceAgent::handle_timeout from the pacing gate onwards: the queued-request
drain and the tail. -/
def IceAgent.handleTimeoutInner (a : IceAgent) (now : Nat) : Option IceAgent :=
  let blocked := match a.lastNow with
    | some ln => decide (now < ln + TIMING_ADVANCE)
    | none => false
  if blocked then some a
  else
    let a := { a with lastNow := some now }
    if a.remoteCredentials.isSome then
      let q := a.stunServerQueue.dropWhile (fun r => decide (STUN_TIMEOUT ≤ now - r.now))
      match q with
      | req :: rest => ({ a with stunServerQueue := rest }).stunServerHandleRequest now req
      | [] => ({ a with stunServerQueue := [] }).handleTimeoutTail now
    else a.handleTimeoutTail now

/-- IceAgent::handle_timeout. -/
def IceAgent.handleTimeout (a : IceAgent) (now : Nat) : Option IceAgent :=
  let a := if a.state == IceConnectionState.New then
    a.setConnectionState IceConnectionState.Checking else a
  a.handleTimeoutInner now

/-- The smallest function at the bottom of agent.rs. -/
def smallest (t1 t2 : Option Nat) : Option Nat :=
  match t1, t2 with
  | none, none => none
  | none, some v2 => some v2
  | some v1, none => some v1
  | some v1, some v2 => if v1 < v2 then some v1 else some v2

/-- Iterator::min over a list of instants. -/
def listMin : List Nat → Option Nat
  | [] => none
  | x :: xs => some ((listMin xs).elim x (min x))

/-- IceAgent::poll_timeout. -/
def IceAgent.pollTimeout (a : IceAgent) : Option Nat :=
  match a.lastNow with
  | none => none
  | some lastNow =>
    let maybeBinding := listMin (a.candidatePairs.map (fun c => c.nextBindingAttempt lastNow))
    let maybeNext := smallest maybeBinding a.scheduledNominationCheck
    match maybeNext with
    | none => none
    | some next =>
      if next < lastNow + TIMING_ADVANCE then some (lastNow + TIMING_ADVANCE) else some next

/-- IceAgent::poll_transmit. -/
def IceAgent.pollTransmit (a : IceAgent) : Option Transmit × IceAgent :=
  match a.transmit with
  | [] => (none, a)
  | t :: ts => (some t, { a with transmit := ts })

/-- IceAgent::poll_event. -/
def IceAgent.pollEvent (a : IceAgent) : Option IceAgentEvent × IceAgent :=
  match a.events with
  | [] => (none, a)
  | e :: es => (some e, { a with events := es })

/-! ## Invariant definitions -/

/-- At most one checklist entry per (local base, remote addr) key. -/
def pairsUniqueKeys (a : IceAgent) : Prop :=
  a.candidatePairs.Pairwise (fun p q =>
    pkey a.localCandidates a.remoteCandidates p ≠ pkey a.localCandidates a.remoteCandidates q)

/-- The checklist is sorted by descending pair priority. -/
def pairsSortedByPrio (a : IceAgent) : Prop :=
  a.candidatePairs.Pairwise (fun p q => q.prio ≤ p.prio)

/-- The checklist holds at most `max_candidate_pairs` entries (100 by
default). -/
def pairsCapped (a : IceAgent) : Prop :=
  a.candidatePairs.length ≤ a.maxCandidatePairs.getD 100

/-- Stored pair indices refer to existing candidates. -/
def pairsInBounds (a : IceAgent) : Prop :=
  ∀ p ∈ a.candidatePairs,
    p.localIdx < a.localCandidates.length ∧ p.remoteIdx < a.remoteCandidates.length

/-- The pair-table invariant claimed by the spec (uniqueness, order, cap),
together with index validity. -/
def pairTableOk (a : IceAgent) : Prop :=
  pairsUniqueKeys a ∧ pairsSortedByPrio a ∧ pairsCapped a ∧ pairsInBounds a

/-- The local-candidate redundancy invariant of the spec: no two
non-discarded local candidates share the same (addr, base). -/
def localRedundancyOk (a : IceAgent) : Prop :=
  a.localCandidates.Pairwise (fun u v =>
    u.discarded = true ∨ v.discarded = true ∨ ¬(u.addr = v.addr ∧ u.base = v.base))

instance (a : IceAgent) : Decidable (pairsUniqueKeys a) := by
  unfold pairsUniqueKeys; infer_instance

instance (a : IceAgent) : Decidable (pairsSortedByPrio a) := by
  unfold pairsSortedByPrio; infer_instance

instance (a : IceAgent) : Decidable (pairsCapped a) := by
  unfold pairsCapped; infer_instance

instance (a : IceAgent) : Decidable (pairsInBounds a) := by
  unfold pairsInBounds; exact List.decidableBAll _ _

instance (a : IceAgent) : Decidable (pairTableOk a) := by
  unfold pairTableOk; infer_instance

instance (a : IceAgent) : Decidable (localRedundancyOk a) := by
  unfold localRedundancyOk; infer_instance

/-! ## Claim-side definitions for accepts_message (C3) -/

/-- The acceptance predicate exactly as claim C3 words it: for a Binding
request the right username half must equal the local ufrag and, when
remote credentials are set, the left half must equal the remote ufrag;
integrity verifies under the local password for responses and under the
remote password for incoming requests. -/
def acceptsClaimed (a : IceAgent) (m : StunMessage) : Bool :=
  (if m.isBindingRequest then
    match m.splitUsername with
    | none => false
    | some (l, r) =>
      r == a.localCredentials.username &&
        (match a.remoteCredentials with
         | some rc => l == rc.username
         | none => true)
  else true) &&
  m.checkIntegrity
    (match a.remoteCredentials with
     | some rc => if m.isResponse then a.localCredentials.password else rc.password
     | none => a.localCredentials.password)

/-- The corrected acceptance predicate (the amendment of C3): the left
username half is the local ufrag, the right half the remote ufrag, and
integrity verifies under the local password for non-responses and under
the remote password for responses. -/
def acceptsCorrected (a : IceAgent) (rc : IceCreds) (m : StunMessage) : Bool :=
  (if m.isBindingRequest then
    match m.splitUsername with
    | none => false
    | some (l, r) => l == a.localCredentials.username && r == rc.username
  else true) &&
  m.checkIntegrity (if m.isResponse then rc.password else a.localCredentials.password)

/-! ## Concrete states used by counterexamples and witnesses -/

def addrV4a : SocketAddr := ⟨false, 1⟩
def addrV4b : SocketAddr := ⟨false, 2⟩
def addrV4c : SocketAddr := ⟨false, 3⟩
def addrV4d : SocketAddr := ⟨false, 4⟩

/-- A fresh agent with known generated credentials and no remote
credentials. -/
def baseAgent : IceAgent := IceAgent.new "LU" "LP"

/-- The fresh agent after set_remote_credentials. -/
def credAgent : IceAgent := baseAgent.setRemoteCredentials ⟨"RU", "RP"⟩

/-- A fresh agent that has already ticked once at t=100. -/
def c4TickAgent : IceAgent :=
  { baseAgent with lastNow := some 100, state := IceConnectionState.Checking }

/-- A Binding success response (integrity irrelevant: the panic fires
first). -/
def respNoCreds : StunMessage :=
  { cls := StunClass.BindingSuccess, transId := 1, mappedAddress := some addrV4b,
    integrityPassword := "RP" }

/-- A well-formed Binding request whose username matches the agent's
ufrags and whose integrity verifies under the agent's local password. -/
def validReq : StunMessage :=
  { cls := StunClass.BindingRequest, transId := 2, username := some ("LU", "RU"),
    prio := some 77, integrityPassword := "LP" }

/-- A locally added peer-reflexive candidate with addr = base = `addrV4a`
(the shape of Candidate::test_peer_rflx(a, a)). -/
def prflxAA : Candidate :=
  { kind := CandidateKind.PeerReflexive, addr := addrV4a, base := addrV4a }

/-- State for C5: peer-reflexive (a, a), then host a (replaces it), then
host a again (the redundancy scan stops at the discarded entry). -/
def c5Post : IceAgent :=
  (((baseAgent.addLocalCandidate prflxAA).2.addLocalCandidate
    (Candidate.host addrV4a)).2.addLocalCandidate (Candidate.host addrV4a)).2

/-- Signalled remote candidate at `addrV4c` with priority 100. -/
def remoteCand1 : Candidate :=
  { kind := CandidateKind.Host, addr := addrV4c, base := addrV4c, fixedPrio := some 100,
    foundation := "f1" }

/-- A second signalled remote candidate at the same address with a higher
priority. -/
def remoteCand2 : Candidate :=
  { kind := CandidateKind.Host, addr := addrV4c, base := addrV4c, fixedPrio := some 200,
    foundation := "f2" }

/-- Pre-state for the C4 counterexample: one local host, two remote
candidates sharing an address; the surviving pair references remote
index 1. -/
def c4Pre : IceAgent :=
  (((credAgent.addLocalCandidate (Candidate.host addrV4a)).2.addRemoteCandidate
    remoteCand1).2.addRemoteCandidate remoteCand2).2

/-- A Binding request from the shared remote address to the local host. -/
def c4Req : StunMessage :=
  { cls := StunClass.BindingRequest, transId := 7, username := some ("LU", "RU"),
    prio := some 300, integrityPassword := "LP" }

/-- The C4 post-state: handle_receive inserts a second pair with the same
(local base, remote addr) key. -/
def c4Post : IceAgent :=
  (c4Pre.handleReceive 1000 ⟨addrV4c, addrV4a, Datagram.stun c4Req⟩).getD c4Pre

/-- A Succeeded pair that has seen a remote binding request. -/
def eligPair : CandidatePair :=
  { localIdx := 0, remoteIdx := 0, prio := 42, state := CheckState.Succeeded,
    remoteBindingRequests := 1 }

/-- State for the C7 counterexample: a nomination check due at 1010, but
the last tick was at 1000, so a call at 1020 is inside the pacing window
(1020 < 1000 + 50) and returns without nominating. -/
def c7Agent : IceAgent :=
  { localCredentials := ⟨"LU", "LP"⟩, remoteCredentials := some ⟨"RU", "RP"⟩,
    controlling := true, state := IceConnectionState.Checking,
    localCandidates := [Candidate.host addrV4a], remoteCandidates := [Candidate.host addrV4c],
    candidatePairs := [eligPair], lastNow := some 1000,
    scheduledNominationCheck := some 1010 }

/-- The C7 post-state. -/
def c7Post : IceAgent := (c7Agent.handleTimeout 1020).getD c7Agent

/-! ## Claim theorems: the closed evaluations -/

/-- C1: refuted by the code. The claim says handle_receive returns
normally for every datagram and instant, in particular before
set_remote_credentials; but accepts_message calls stun_credentials, which
dereferences the remote credentials unconditionally (expect in agent.rs
line 203-206), so any STUN datagram delivered before
set_remote_credentials panics. Here a Binding success response delivered
to the fresh agent reaches that panic (modelled as `none`). -/
theorem C1_receive_panics_without_remote_credentials :
    baseAgent.handleReceive 50 ⟨addrV4b, addrV4a, Datagram.stun respNoCreds⟩ = none ∧
      baseAgent.remoteCredentials = none := by
  constructor
  · rfl
  · rfl

/-- C2: refuted by the code. A valid Binding request delivered before
set_remote_credentials never reaches the queueing code in
stun_server_handle_message: accepts_message panics first (the
unconditional expect in stun_credentials), so the request is neither
enqueued nor answered later. -/
theorem C2_early_request_panics_instead_of_queueing :
    baseAgent.handleReceive 60 ⟨addrV4b, addrV4a, Datagram.stun validReq⟩ = none ∧
      baseAgent.stunServerQueue = [] ∧ baseAgent.remoteCredentials = none := by
  refine ⟨rfl, rfl, rfl⟩

/-- C3 counterexample: accepts_message accepts a Binding request whose
LEFT username half is the local ufrag and whose integrity verifies under
the LOCAL password, while the predicate worded as in the claim (right
half = local ufrag; requests verified under the remote password) rejects
the same message; so the claimed equivalence is false at this input. -/
theorem C3_counterexample :
    credAgent.acceptsMessage validReq = some true ∧
      acceptsClaimed credAgent validReq = false := by
  refine ⟨rfl, rfl⟩

/-- C4 counterexample: from a reachable state whose pair table satisfies
the full invariant, one handle_receive of a well-formed Binding request
produces a table holding two pairs with the same (local base, remote
addr) key, because the request's source matches remote index 0 while the
surviving pair references remote index 1, and stun_server_handle_request
inserts without key-based pruning. -/
theorem C4_counterexample :
    pairTableOk c4Pre ∧
      (c4Pre.handleReceive 1000 ⟨addrV4c, addrV4a, Datagram.stun c4Req⟩).isSome = true ∧
      ¬ pairsUniqueKeys c4Post := by
  refine ⟨by decide, by decide, by decide⟩

/-- C5: refuted by the code (code bug). After adding a peer-reflexive
candidate with (addr, base) = (A, A), a host candidate at A (which
discards the first), and a second host candidate at A, the redundancy
scan in add_local_candidate stops at the first (already discarded) match
and pushes the newcomer, leaving two non-discarded local candidates with
the same (addr, base). -/
theorem C5_redundancy_invariant_violated :
    ((c5Post.localCandidates.map (fun c => c.discarded)) = [true, false, false] ∧
      (c5Post.localCandidates.map (fun c => (c.addr, c.base))) =
        [(addrV4a, addrV4a), (addrV4a, addrV4a), (addrV4a, addrV4a)]) ∧
      ¬ localRedundancyOk c5Post := by
  refine ⟨by decide, by decide⟩

/-- C7 counterexample: a nomination check is scheduled at 1010 and
handle_timeout runs at 1020 ≥ 1010, yet because 1020 is within the
timing-advance window of the last tick (1000 + 50), the call returns
early: the schedule is not cleared and the eligible Succeeded pair is not
nominated, contradicting the claim as stated. -/
theorem C7_counterexample :
    c7Agent.scheduledNominationCheck = some 1010 ∧
      (c7Agent.handleTimeout 1020).isSome = true ∧
      c7Post.scheduledNominationCheck = some 1010 ∧
      c7Post.candidatePairs.map (fun p => p.nominated) = [false] ∧
      eligiblePair eligPair = true := by
  refine ⟨rfl, by decide, by decide, by decide, by decide⟩

/-! ## C3 amended -/

/-- C3 (amended): with remote credentials set, accepts_message equals the
corrected predicate: for Binding requests the left username half must be
the local ufrag and the right half the remote ufrag, and the integrity
attribute verifies under the local password for non-responses and under
the remote password for responses. -/
theorem C3_accepts_amended (a : IceAgent) (rc : IceCreds) (m : StunMessage)
    (hrc : a.remoteCredentials = some rc)
    (hu : m.isBindingRequest = true → m.username.isSome = true) :
    a.acceptsMessage m = some (acceptsCorrected a rc m) := by
  obtain ⟨cls, tid, un, pr, uc, ic, ma, ip⟩ := m
  cases un with
  | none =>
    cases cls <;>
      simp_all [IceAgent.acceptsMessage, acceptsCorrected, IceAgent.stunCredentials,
        StunMessage.splitUsername, StunMessage.isBindingRequest, StunMessage.isResponse,
        StunMessage.checkIntegrity, hrc]
  | some lr =>
    obtain ⟨l, r⟩ := lr
    cases cls <;>
      by_cases hl : l = a.localCredentials.username <;>
      by_cases hr2 : r = rc.username <;>
        simp_all [IceAgent.acceptsMessage, acceptsCorrected, IceAgent.stunCredentials,
          StunMessage.splitUsername, StunMessage.isBindingRequest, StunMessage.isResponse,
          StunMessage.checkIntegrity, hrc]

/-- Witness for C3_accepts_amended: the hypotheses hold at credAgent and
validReq, and the corrected predicate evaluates to true there. -/
theorem C3_accepts_amended_witness :
    credAgent.acceptsMessage validReq = some (acceptsCorrected credAgent ⟨"RU", "RP"⟩ validReq) ∧
      acceptsCorrected credAgent ⟨"RU", "RP"⟩ validReq = true :=
  ⟨C3_accepts_amended credAgent ⟨"RU", "RP"⟩ validReq rfl (fun _ => rfl), by decide⟩

/-! ## C6: poll_timeout -/

theorem listMin_eq_none : ∀ {l : List Nat}, listMin l = none ↔ l = [] := by
  intro l
  cases l with
  | nil => simp [listMin]
  | cons x xs => simp [listMin]

theorem listMin_spec : ∀ {l : List Nat} {m : Nat}, listMin l = some m →
    m ∈ l ∧ ∀ x ∈ l, m ≤ x := by
  intro l
  induction l with
  | nil => intro m h; simp [listMin] at h
  | cons x xs ih =>
    intro m h
    rw [show listMin (x :: xs) = some ((listMin xs).elim x (min x)) from rfl] at h
    injection h with h
    cases hxs : listMin xs with
    | none =>
      rw [hxs] at h
      simp only [Option.elim] at h
      have hnil : xs = [] := listMin_eq_none.mp hxs
      subst hnil
      subst h
      exact ⟨List.mem_singleton.mpr rfl, by simp⟩
    | some b =>
      rw [hxs] at h
      simp only [Option.elim] at h
      obtain ⟨hmem, hle⟩ := ih hxs
      subst h
      constructor
      · rcases Nat.le_total x b with hc | hc
        · rw [min_eq_left hc]; exact List.mem_cons_self x xs
        · rw [min_eq_right hc]; exact List.mem_cons_of_mem x hmem
      · intro z hz
        rcases List.mem_cons.mp hz with h1 | h2
        · subst h1; exact min_le_left _ _
        · exact le_trans (le_trans (min_le_right x b) (hle z h2)) (le_refl z)

theorem smallest_eq_none : ∀ {t1 t2 : Option Nat}, smallest t1 t2 = none ↔
    (t1 = none ∧ t2 = none) := by
  intro t1 t2
  cases t1 with
  | none => cases t2 <;> simp [smallest]
  | some v1 =>
    cases t2 with
    | none => simp [smallest]
    | some v2 =>
      simp only [smallest]
      constructor
      · intro h
        by_cases hc : v1 < v2
        · rw [if_pos hc] at h; cases h
        · rw [if_neg hc] at h; cases h
      · intro h
        cases h.1

theorem smallest_spec {t1 t2 : Option Nat} {w : Nat} (h : smallest t1 t2 = some w) :
    (t1 = some w ∨ t2 = some w) ∧ (∀ x, t1 = some x → w ≤ x) ∧
      (∀ x, t2 = some x → w ≤ x) := by
  cases t1 with
  | none =>
    cases t2 with
    | none => simp [smallest] at h
    | some v2 =>
      have hw : v2 = w := by simpa [smallest] using h
      subst hw
      refine ⟨Or.inr rfl, ?_, ?_⟩
      · intro x hx; cases hx
      · intro x hx; injection hx with hx; omega
  | some v1 =>
    cases t2 with
    | none =>
      have hw : v1 = w := by simpa [smallest] using h
      subst hw
      refine ⟨Or.inl rfl, ?_, ?_⟩
      · intro x hx; injection hx with hx; omega
      · intro x hx; cases hx
    | some v2 =>
      simp only [smallest] at h
      by_cases hc : v1 < v2
      · rw [if_pos hc] at h
        injection h with h
        subst h
        refine ⟨Or.inl rfl, ?_, ?_⟩
        · intro x hx; injection hx with hx; omega
        · intro x hx; injection hx with hx; omega
      · rw [if_neg hc] at h
        injection h with h
        subst h
        refine ⟨Or.inr rfl, ?_, ?_⟩
        · intro x hx; injection hx with hx; omega
        · intro x hx; injection hx with hx; omega

/-- Characterization of poll_timeout once last_now is set. -/
theorem pollTimeout_eq (a : IceAgent) (t : Nat) (hlast : a.lastNow = some t) :
    a.pollTimeout =
      (smallest (listMin (a.candidatePairs.map (fun c => c.nextBindingAttempt t)))
        a.scheduledNominationCheck).map
        (fun next => if next < t + TIMING_ADVANCE then t + TIMING_ADVANCE else next) := by
  unfold IceAgent.pollTimeout
  rw [hlast]
  dsimp only
  cases hsm : smallest (listMin (List.map (fun c => c.nextBindingAttempt t) a.candidatePairs))
      a.scheduledNominationCheck with
  | none => rfl
  | some v => by_cases hv : v < t + TIMING_ADVANCE <;> simp [hv]

/-- C6: poll_timeout returns none before the first handle_timeout; once
last_now = t is set it returns some value whenever a pair or a scheduled
nomination check exists, and any returned value equals the minimum of the
pairs' next binding-attempt times (computed at t) and the scheduled
nomination check, raised to at least t + Ta; in particular it is never
earlier than t + Ta. -/
theorem C6_poll_timeout :
    (∀ a : IceAgent, a.lastNow = none → a.pollTimeout = none) ∧
    (∀ (a : IceAgent) (t : Nat), a.lastNow = some t →
      (a.candidatePairs ≠ [] ∨ a.scheduledNominationCheck ≠ none) →
      (a.pollTimeout).isSome = true) ∧
    (∀ (a : IceAgent) (t v : Nat), a.lastNow = some t → a.pollTimeout = some v →
      t + TIMING_ADVANCE ≤ v ∧
      ∃ w, v = max w (t + TIMING_ADVANCE) ∧
        (w ∈ a.candidatePairs.map (fun c => c.nextBindingAttempt t) ∨
          a.scheduledNominationCheck = some w) ∧
        (∀ u ∈ a.candidatePairs.map (fun c => c.nextBindingAttempt t), w ≤ u) ∧
        (∀ s, a.scheduledNominationCheck = some s → w ≤ s)) := by
  refine ⟨?_, ?_, ?_⟩
  · intro a h
    unfold IceAgent.pollTimeout
    rw [h]
  · intro a t hlast hsome
    rw [pollTimeout_eq a t hlast]
    cases hsm : smallest (listMin (a.candidatePairs.map (fun c => c.nextBindingAttempt t)))
        a.scheduledNominationCheck with
    | some w => simp
    | none =>
      obtain ⟨h1, h2⟩ := smallest_eq_none.mp hsm
      have hnil := listMin_eq_none.mp h1
      rcases hsome with hpairs | hsched
      · exact absurd (List.map_eq_nil_iff.mp hnil) hpairs
      · exact absurd h2 hsched
  · intro a t v hlast hpoll
    rw [pollTimeout_eq a t hlast] at hpoll
    cases hsm : smallest (listMin (a.candidatePairs.map (fun c => c.nextBindingAttempt t)))
        a.scheduledNominationCheck with
    | none => rw [hsm] at hpoll; cases hpoll
    | some w =>
      rw [hsm] at hpoll
      simp only [Option.map_some'] at hpoll
      injection hpoll with hv
      obtain ⟨hmemOr, hminB, hminS⟩ := smallest_spec hsm
      have hvmax : v = max w (t + TIMING_ADVANCE) := by
        rw [← hv]
        split <;> omega
      refine ⟨by omega, w, hvmax, ?_, ?_, hminS⟩
      · rcases hmemOr with h1 | h2
        · exact Or.inl (listMin_spec h1).1
        · exact Or.inr h2
      · intro u hu
        cases hlm : listMin (a.candidatePairs.map (fun c => c.nextBindingAttempt t)) with
        | none =>
          have := listMin_eq_none.mp hlm
          rw [this] at hu
          cases hu
        | some b =>
          have hwb := hminB b hlm
          exact le_trans hwb ((listMin_spec hlm).2 u hu)

/-- Concrete agent for the C6 witness: one pair with no attempts, last
tick at 100, no scheduled check; poll_timeout clamps the due probe (100)
up to 150. -/
def c6Agent : IceAgent :=
  { localCredentials := ⟨"LU", "LP"⟩, state := IceConnectionState.Checking,
    localCandidates := [Candidate.host addrV4a], remoteCandidates := [Candidate.host addrV4c],
    candidatePairs := [CandidatePair.new 0 0 42], lastNow := some 100 }

/-- Witness for C6_poll_timeout at c6Agent. -/
theorem C6_poll_timeout_witness :
    c6Agent.pollTimeout = some 150 ∧ 100 + TIMING_ADVANCE ≤ 150 :=
  ⟨rfl, ((C6_poll_timeout.2.2) c6Agent 100 150 rfl rfl).1⟩

/-! ## Functional characterization of form_pairs -/

/-- The pairs-list effect of one form_pairs step. -/
def stepPairs (locals remotes : List Candidate) (ctrl : Bool) (li ri : Nat)
    (ps : List CandidatePair) : List CandidatePair :=
  installPair locals remotes
    (CandidatePair.new li ri
      (CandidatePair.calculatePrio ctrl (candAt remotes ri).prio (candAt locals li).prio)) ps

/-- The pairs-list effect of the inner form_pairs loop. -/
def innerPairs (locals remotes : List Candidate) (ctrl : Bool) (li : Nat) :
    List Nat → List CandidatePair → List CandidatePair
  | [], ps => ps
  | ri :: rs, ps => innerPairs locals remotes ctrl li rs (stepPairs locals remotes ctrl li ri ps)

/-- The pairs-list effect of the outer form_pairs loop. -/
def outerPairs (locals remotes : List Candidate) (ctrl : Bool) :
    List Nat → List Nat → List CandidatePair → List CandidatePair
  | [], _, ps => ps
  | li :: ls, rids, ps =>
    outerPairs locals remotes ctrl ls rids (innerPairs locals remotes ctrl li rids ps)

theorem formPairsStep_eq (a : IceAgent) (li ri : Nat) :
    a.formPairsStep li ri =
      { a with candidatePairs :=
          stepPairs a.localCandidates a.remoteCandidates a.controlling li ri a.candidatePairs } :=
  rfl

theorem formPairsInner_eq (a : IceAgent) (li : Nat) (rs : List Nat) :
    a.formPairsInner li rs =
      { a with candidatePairs := (innerPairs a.localCandidates a.remoteCandidates
          a.controlling li rs a.candidatePairs) } := by
  induction rs generalizing a with
  | nil => rfl
  | cons ri rs ih =>
    show (a.formPairsStep li ri).formPairsInner li rs = _
    rw [ih]
    rfl

theorem formPairsOuter_eq (a : IceAgent) (ls rids : List Nat) :
    a.formPairsOuter ls rids =
      { a with candidatePairs := (outerPairs a.localCandidates a.remoteCandidates
          a.controlling ls rids a.candidatePairs) } := by
  induction ls generalizing a with
  | nil => rfl
  | cons li ls ih =>
    show (a.formPairsInner li rids).formPairsOuter ls rids = _
    rw [formPairsInner_eq, ih]
    rfl

theorem formPairs_eq (a : IceAgent) (lids rids : List Nat) :
    a.formPairs lids rids =
      { a with candidatePairs :=
          (sortPairs (outerPairs a.localCandidates a.remoteCandidates a.controlling lids rids
            a.candidatePairs)).take (a.maxCandidatePairs.getD 100) } := by
  unfold IceAgent.formPairs
  rw [formPairsOuter_eq]

/-! ## C8: local preference assignment -/

/-- The per-kind start values exactly as claim C8 states them. -/
def claimKindStart : CandidateKind → Nat
  | CandidateKind.Host => 65535
  | CandidateKind.PeerReflexive => 49151
  | CandidateKind.ServerReflexive => 32767
  | CandidateKind.Relayed => 16383

/-- The C8 example: four host candidates added in family order
IPv4, IPv6, IPv6, IPv4. -/
def c8Agent : IceAgent :=
  ((((IceAgent.new "LU" "LP").addLocalCandidate (Candidate.host addrV4a)).2.addLocalCandidate
    (Candidate.host ⟨true, 61⟩)).2.addLocalCandidate
    (Candidate.host ⟨true, 62⟩)).2.addLocalCandidate (Candidate.host addrV4b) |>.2

/-- C8: whenever add_local_candidate stores a candidate, the stored local
preference equals the per-kind start value minus 1 for IPv4 minus 2 per
existing same-kind same-family candidate (the no-underflow hypothesis
keeps the u32 subtraction meaningful); and the four-host example receives
preferences [65534, 65535, 65533, 65532]. -/
theorem C8_local_preference :
    (∀ (a : IceAgent) (c : Candidate) (b : Bool) (a2 : IceAgent),
      a.iceLite = false →
      (if c.addr.isV6 then 0 else 1) + 2 * sameKindCount a.localCandidates c ≤
        claimKindStart c.kind →
      a.addLocalCandidate c = (b, a2) → b = true →
      a2.localCandidates.getLast? =
        some { c with
          localPref := some (claimKindStart c.kind - (if c.addr.isV6 then 0 else 1)
            - 2 * sameKindCount a.localCandidates c) }) ∧
    c8Agent.localCandidates.map (fun c => c.localPref) =
      [some 65534, some 65535, some 65533, some 65532] := by
  constructor
  · intro a c b a2 hlite hund hadd hb
    subst hb
    have hstart : counterStart c.kind c.addr.isV6 =
        claimKindStart c.kind - (if c.addr.isV6 then 0 else 1) := by
      cases c.kind <;> cases c.addr.isV6 <;> simp [counterStart, claimKindStart]
    have hpref : counterStart c.kind c.addr.isV6 - sameKindCount a.localCandidates c * 2 =
        claimKindStart c.kind - (if c.addr.isV6 then 0 else 1)
          - 2 * sameKindCount a.localCandidates c := by
      rw [hstart]
      cases hv : c.addr.isV6 <;> rw [hv] at hund <;> omega
    have key : (a.addLocalCandidate c).1 = true →
        (a.addLocalCandidate c).2.localCandidates.getLast? =
          some { c with
            localPref := some (counterStart c.kind c.addr.isV6
              - sameKindCount a.localCandidates c * 2) } := by
      unfold IceAgent.addLocalCandidate
      rw [hlite]
      simp only [Bool.false_and, Bool.false_eq_true, if_false]
      split
      · next idx hfi =>
        split
        · intro h
          simp at h
        · intro _
          unfold IceAgent.addLocalFinish IceAgent.discardCandidatePairs
          dsimp only
          rw [formPairs_eq]
          simp [List.getLast?_concat]
      · next hfi =>
        intro _
        unfold IceAgent.addLocalFinish
        dsimp only
        rw [formPairs_eq]
        simp [List.getLast?_concat]
    rw [hadd] at key
    have h2 := key rfl
    simp only at h2
    rw [h2, hpref]
  · decide

/-- The agent after the witness add for C8. -/
def c8WitnessAgent : IceAgent := (baseAgent.addLocalCandidate (Candidate.host addrV4a)).2

/-- Witness for C8_local_preference: the hypotheses hold for the fresh
agent and an IPv4 host candidate, which receives preference 65534. -/
theorem C8_local_preference_witness :
    c8WitnessAgent.localCandidates.getLast? =
      some { Candidate.host addrV4a with localPref := some 65534 } := by
  have h := C8_local_preference.1 baseAgent (Candidate.host addrV4a) true c8WitnessAgent rfl
    (by decide) rfl rfl
  exact h

/-! ## C10: frame effect of a peer-reflexive local discovery -/

theorem firstIdx_eq_none {p : α → Bool} :
    ∀ {l : List α}, (∀ x ∈ l, p x = false) → firstIdx p l = none := by
  intro l
  induction l with
  | nil => intro _; rfl
  | cons x xs ih =>
    intro h
    unfold firstIdx
    rw [h x (List.mem_cons_self x xs), ih (fun y hy => h y (List.mem_cons_of_mem x hy))]
    rfl

/-- C10: when handle_receive processes a Binding success response whose
mapped address matches no local candidate, the discovered peer-reflexive
local candidate is appended verbatim (no event, no preference assignment,
no redundancy elimination), no pair is formed, and the only pair-table
change is the owning pair's transition recorded by
record_binding_response (valid index, RTT, Succeeded); its identity,
priority, nomination, counters and attempts are untouched. -/
theorem C10_prflx_frame (a : IceAgent) (now : Nat) (src dst : SocketAddr)
    (m : StunMessage) (i : Nat) (pr : CandidatePair) (mp : SocketAddr)
    (hacc : a.acceptsMessage m = some true)
    (hcls : m.cls = StunClass.BindingSuccess)
    (hidx : firstIdx (fun p => p.hasBindingAttempt m.transId) a.candidatePairs = some i)
    (hpr : a.candidatePairs.get? i = some pr)
    (hmap : m.mappedAddress = some mp)
    (hfresh : ∀ cand ∈ a.localCandidates, cand.addr ≠ mp) :
    ∃ a2, a.handleReceive now ⟨src, dst, Datagram.stun m⟩ = some a2 ∧
      a2.events = a.events ∧
      a2.transmit = a.transmit ∧
      a2.remoteCandidates = a.remoteCandidates ∧
      a2.localCandidates = a.localCandidates ++
        [Candidate.peerReflexive mp (candAt a.localCandidates pr.localIdx).base
          (candAt a.localCandidates pr.localIdx).prioPrflx none] ∧
      a2.candidatePairs = a.candidatePairs.set i
        (pr.recordBindingResponse now m.transId a.localCandidates.length) ∧
      ((pr.recordBindingResponse now m.transId a.localCandidates.length).localIdx = pr.localIdx ∧
        (pr.recordBindingResponse now m.transId a.localCandidates.length).remoteIdx =
          pr.remoteIdx ∧
        (pr.recordBindingResponse now m.transId a.localCandidates.length).prio = pr.prio ∧
        (pr.recordBindingResponse now m.transId a.localCandidates.length).nominated =
          pr.nominated ∧
        (pr.recordBindingResponse now m.transId a.localCandidates.length).remoteBindingRequests =
          pr.remoteBindingRequests ∧
        (pr.recordBindingResponse now m.transId a.localCandidates.length).attempts =
          pr.attempts ∧
        (pr.recordBindingResponse now m.transId a.localCandidates.length).state =
          CheckState.Succeeded ∧
        (pr.recordBindingResponse now m.transId a.localCandidates.length).validIdx =
          some a.localCandidates.length) := by
  have hbr : m.isBindingRequest = false := by
    unfold StunMessage.isBindingRequest
    rw [hcls]
    rfl
  have hsr : m.isSuccessfulBindingResponse = true := by
    unfold StunMessage.isSuccessfulBindingResponse
    rw [hcls]
    rfl
  have hnolocal : firstIdx (fun c => c.addr == mp) a.localCandidates = none := by
    apply firstIdx_eq_none
    intro x hx
    exact beq_eq_false_iff_ne.mpr (hfresh x hx)
  unfold IceAgent.handleReceive
  dsimp only
  rw [hacc, hbr, hsr]
  simp only [Bool.false_eq_true, if_false, if_true]
  unfold IceAgent.stunClientHandleResponse
  dsimp only
  rw [hidx, hmap]
  dsimp only
  rw [hnolocal]
  dsimp only
  have hpair : pairAt a.candidatePairs i = pr := by
    unfold pairAt
    rw [hpr]
    rfl
  rw [hpair]
  exact ⟨_, rfl, rfl, rfl, rfl, rfl, rfl, rfl, rfl, rfl, rfl, rfl, rfl, rfl, rfl⟩

/-- The owning pair for the C10 witness. -/
def c10Pair : CandidatePair :=
  { localIdx := 0, remoteIdx := 0, prio := 42, state := CheckState.InProgress,
    attempts := [⟨5, 90⟩], attemptCount := 1 }

/-- Concrete agent for the C10 witness. -/
def c10Agent : IceAgent :=
  { localCredentials := ⟨"LU", "LP"⟩, remoteCredentials := some ⟨"RU", "RP"⟩,
    controlling := false, state := IceConnectionState.Checking,
    localCandidates := [Candidate.host addrV4a], remoteCandidates := [Candidate.host addrV4c],
    candidatePairs := [c10Pair], lastNow := some 90 }

/-- The Binding success response for the C10 witness: its mapped address
matches no local candidate. -/
def c10Msg : StunMessage :=
  { cls := StunClass.BindingSuccess, transId := 5, mappedAddress := some addrV4d,
    integrityPassword := "RP" }

/-- Witness for C10_prflx_frame at a concrete post-probe state. -/
theorem C10_prflx_frame_witness :
    ∃ a2, c10Agent.handleReceive 130 ⟨addrV4c, addrV4a, Datagram.stun c10Msg⟩ = some a2 ∧
      a2.events = c10Agent.events ∧
      a2.localCandidates = c10Agent.localCandidates ++
        [Candidate.peerReflexive addrV4d (candAt c10Agent.localCandidates c10Pair.localIdx).base
          (candAt c10Agent.localCandidates c10Pair.localIdx).prioPrflx none] := by
  obtain ⟨a2, h1, h2, h3, h4, h5, h6⟩ :=
    C10_prflx_frame c10Agent 130 addrV4c addrV4a c10Msg 0 c10Pair addrV4d rfl rfl rfl rfl rfl
      (by decide)
  exact ⟨a2, h1, h2, h5⟩

/-! ## The pruning scan: properties of installPair -/

theorem installPair_mem {L R : List Candidate} {np y : CandidatePair} :
    ∀ {l : List CandidatePair}, y ∈ installPair L R np l → y ∈ l ∨ y = np := by
  intro l
  induction l with
  | nil =>
    intro h
    simp [installPair] at h
    exact Or.inr h
  | cons check rest ih =>
    intro h
    unfold installPair at h
    by_cases hk : (pkey L R check == pkey L R np) = true
    · rw [if_pos hk] at h
      by_cases hp : np.prio ≤ check.prio
      · rw [if_pos hp] at h
        exact Or.inl h
      · rw [if_neg hp] at h
        rcases List.mem_cons.mp h with h1 | h2
        · exact Or.inr h1
        · exact Or.inl (List.mem_cons.mpr (Or.inr h2))
    · rw [if_neg hk] at h
      rcases List.mem_cons.mp h with h1 | h2
      · exact Or.inl (List.mem_cons.mpr (Or.inl h1))
      · rcases ih h2 with h3 | h3
        · exact Or.inl (List.mem_cons.mpr (Or.inr h3))
        · exact Or.inr h3

theorem installPair_length {L R : List Candidate} {np : CandidatePair} :
    ∀ {l : List CandidatePair}, (installPair L R np l).length ≤ l.length + 1 := by
  intro l
  induction l with
  | nil => simp [installPair]
  | cons check rest ih =>
    unfold installPair
    by_cases hk : (pkey L R check == pkey L R np) = true
    · rw [if_pos hk]
      by_cases hp : np.prio ≤ check.prio
      · rw [if_pos hp]; simp
      · rw [if_neg hp]; simp
    · rw [if_neg hk]
      simpa using Nat.succ_le_succ ih

theorem installPair_unique {L R : List Candidate} {np : CandidatePair} :
    ∀ {l : List CandidatePair},
      l.Pairwise (fun p q => pkey L R p ≠ pkey L R q) →
      (installPair L R np l).Pairwise (fun p q => pkey L R p ≠ pkey L R q) := by
  intro l
  induction l with
  | nil =>
    intro _
    simp [installPair]
  | cons check rest ih =>
    intro hu
    rw [List.pairwise_cons] at hu
    obtain ⟨hhead, htail⟩ := hu
    unfold installPair
    by_cases hk : (pkey L R check == pkey L R np) = true
    · rw [if_pos hk]
      by_cases hp : np.prio ≤ check.prio
      · rw [if_pos hp]
        exact List.pairwise_cons.mpr ⟨hhead, htail⟩
      · rw [if_neg hp]
        refine List.pairwise_cons.mpr ⟨?_, htail⟩
        intro y hy
        have hknp : pkey L R check = pkey L R np := beq_iff_eq.mp hk
        rw [← hknp]
        exact hhead y hy
    · rw [if_neg hk]
      refine List.pairwise_cons.mpr ⟨?_, ih htail⟩
      intro y hy
      rcases installPair_mem hy with h1 | h1
      · exact hhead y h1
      · rw [h1]
        exact fun hcontra => hk (beq_iff_eq.mpr hcontra)

theorem installPair_cover {L R : List Candidate} {np : CandidatePair} :
    ∀ {l : List CandidatePair},
      ∃ y ∈ installPair L R np l, pkey L R y = pkey L R np ∧ np.prio ≤ y.prio := by
  intro l
  induction l with
  | nil => exact ⟨np, by simp [installPair], rfl, le_refl _⟩
  | cons check rest ih =>
    unfold installPair
    by_cases hk : (pkey L R check == pkey L R np) = true
    · rw [if_pos hk]
      by_cases hp : np.prio ≤ check.prio
      · rw [if_pos hp]
        exact ⟨check, List.mem_cons_self _ _, beq_iff_eq.mp hk, hp⟩
      · rw [if_neg hp]
        exact ⟨np, List.mem_cons_self _ _, rfl, le_refl _⟩
    · rw [if_neg hk]
      obtain ⟨y, hy, hkey, hprio⟩ := ih
      exact ⟨y, List.mem_cons_of_mem _ hy, hkey, hprio⟩

theorem installPair_cover_mono {L R : List Candidate} {np : CandidatePair}
    {k : SocketAddr × SocketAddr} {b : Nat} :
    ∀ {l : List CandidatePair},
      (∃ y ∈ l, pkey L R y = k ∧ b ≤ y.prio) →
      ∃ y ∈ installPair L R np l, pkey L R y = k ∧ b ≤ y.prio := by
  intro l
  induction l with
  | nil => intro h; simp at h
  | cons check rest ih =>
    intro h
    obtain ⟨y, hy, hkey, hprio⟩ := h
    unfold installPair
    by_cases hk : (pkey L R check == pkey L R np) = true
    · rw [if_pos hk]
      by_cases hp : np.prio ≤ check.prio
      · rw [if_pos hp]
        exact ⟨y, hy, hkey, hprio⟩
      · rw [if_neg hp]
        rcases List.mem_cons.mp hy with h1 | h1
        · refine ⟨np, List.mem_cons_self _ _, ?_, ?_⟩
          · rw [← beq_iff_eq.mp hk, ← h1, hkey]
          · subst h1
            omega
        · exact ⟨y, List.mem_cons_of_mem _ h1, hkey, hprio⟩
    · rw [if_neg hk]
      rcases List.mem_cons.mp hy with h1 | h1
      · subst h1
        exact ⟨y, List.mem_cons_self _ _, hkey, hprio⟩
      · obtain ⟨z, hz, hzkey, hzprio⟩ := ih ⟨y, h1, hkey, hprio⟩
        exact ⟨z, List.mem_cons_of_mem _ hz, hzkey, hzprio⟩

theorem installPair_skip {L R : List Candidate} {np : CandidatePair} :
    ∀ {l : List CandidatePair},
      l.Pairwise (fun p q => pkey L R p ≠ pkey L R q) →
      (∃ y ∈ l, pkey L R y = pkey L R np ∧ np.prio ≤ y.prio) →
      installPair L R np l = l := by
  intro l
  induction l with
  | nil => intro _ h; simp at h
  | cons check rest ih =>
    intro hu hcov
    rw [List.pairwise_cons] at hu
    obtain ⟨hhead, htail⟩ := hu
    obtain ⟨y, hy, hkey, hprio⟩ := hcov
    unfold installPair
    by_cases hk : (pkey L R check == pkey L R np) = true
    · rw [if_pos hk]
      rcases List.mem_cons.mp hy with h1 | h1
      · subst h1
        rw [if_pos hprio]
      · exfalso
        apply hhead y h1
        rw [beq_iff_eq.mp hk, ← hkey]
    · rw [if_neg hk]
      have hyin : y ∈ rest := by
        rcases List.mem_cons.mp hy with h1 | h1
        · exfalso
          apply hk
          apply beq_iff_eq.mpr
          rw [h1] at hkey
          exact hkey
        · exact h1
      rw [ih htail ⟨y, hyin, hkey, hprio⟩]

/-! ## Properties of the form_pairs loops -/

theorem innerPairs_forall {L R : List Candidate} {ctrl : Bool} {li : Nat}
    {P : CandidatePair → Prop} :
    ∀ {rs : List Nat} {ps : List CandidatePair},
      (∀ ri ∈ rs, P (CandidatePair.new li ri (CandidatePair.calculatePrio ctrl
        (candAt R ri).prio (candAt L li).prio))) →
      (∀ y ∈ ps, P y) → ∀ y ∈ innerPairs L R ctrl li rs ps, P y := by
  intro rs
  induction rs with
  | nil => intro ps _ hps; exact hps
  | cons ri rs ih =>
    intro ps hnew hps
    unfold innerPairs
    apply ih (fun r hr => hnew r (List.mem_cons_of_mem _ hr))
    intro y hy
    unfold stepPairs at hy
    rcases installPair_mem hy with h1 | h1
    · exact hps y h1
    · rw [h1]
      exact hnew ri (List.mem_cons_self _ _)

theorem outerPairs_forall {L R : List Candidate} {ctrl : Bool}
    {P : CandidatePair → Prop} :
    ∀ {ls rids : List Nat} {ps : List CandidatePair},
      (∀ li ∈ ls, ∀ ri ∈ rids, P (CandidatePair.new li ri (CandidatePair.calculatePrio ctrl
        (candAt R ri).prio (candAt L li).prio))) →
      (∀ y ∈ ps, P y) → ∀ y ∈ outerPairs L R ctrl ls rids ps, P y := by
  intro ls
  induction ls with
  | nil => intro rids ps _ hps; exact hps
  | cons li ls ih =>
    intro rids ps hnew hps
    unfold outerPairs
    apply ih (fun l hl r hr => hnew l (List.mem_cons_of_mem _ hl) r hr)
    exact innerPairs_forall (fun r hr => hnew li (List.mem_cons_self _ _) r hr) hps

theorem innerPairs_unique {L R : List Candidate} {ctrl : Bool} {li : Nat} :
    ∀ {rs : List Nat} {ps : List CandidatePair},
      ps.Pairwise (fun p q => pkey L R p ≠ pkey L R q) →
      (innerPairs L R ctrl li rs ps).Pairwise (fun p q => pkey L R p ≠ pkey L R q) := by
  intro rs
  induction rs with
  | nil => intro ps h; exact h
  | cons ri rs ih =>
    intro ps h
    unfold innerPairs
    exact ih (installPair_unique h)

theorem outerPairs_unique {L R : List Candidate} {ctrl : Bool} :
    ∀ {ls rids : List Nat} {ps : List CandidatePair},
      ps.Pairwise (fun p q => pkey L R p ≠ pkey L R q) →
      (outerPairs L R ctrl ls rids ps).Pairwise (fun p q => pkey L R p ≠ pkey L R q) := by
  intro ls
  induction ls with
  | nil => intro rids ps h; exact h
  | cons li ls ih =>
    intro rids ps h
    unfold outerPairs
    exact ih (innerPairs_unique h)

theorem innerPairs_length {L R : List Candidate} {ctrl : Bool} {li : Nat} :
    ∀ {rs : List Nat} {ps : List CandidatePair},
      (innerPairs L R ctrl li rs ps).length ≤ ps.length + rs.length := by
  intro rs
  induction rs with
  | nil => intro ps; simp [innerPairs]
  | cons ri rs ih =>
    intro ps
    unfold innerPairs
    calc (innerPairs L R ctrl li rs (stepPairs L R ctrl li ri ps)).length
        ≤ (stepPairs L R ctrl li ri ps).length + rs.length := ih
      _ ≤ ps.length + 1 + rs.length := by
          have := @installPair_length L R (CandidatePair.new li ri
            (CandidatePair.calculatePrio ctrl (candAt R ri).prio (candAt L li).prio)) ps
          unfold stepPairs
          omega
      _ = ps.length + (rs.length + 1) := by omega

theorem outerPairs_length {L R : List Candidate} {ctrl : Bool} :
    ∀ {ls rids : List Nat} {ps : List CandidatePair},
      (outerPairs L R ctrl ls rids ps).length ≤ ps.length + ls.length * rids.length := by
  intro ls
  induction ls with
  | nil => intro rids ps; simp [outerPairs]
  | cons li ls ih =>
    intro rids ps
    unfold outerPairs
    calc (outerPairs L R ctrl ls rids (innerPairs L R ctrl li rids ps)).length
        ≤ (innerPairs L R ctrl li rids ps).length + ls.length * rids.length := ih
      _ ≤ ps.length + rids.length + ls.length * rids.length := by
          have := @innerPairs_length L R ctrl li rids ps
          omega
      _ ≤ ps.length + (ls.length + 1) * rids.length := by ring_nf; omega

/-! ## Sorting and index lemmas -/

theorem sortPairs_perm (l : List CandidatePair) : (sortPairs l).Perm l :=
  List.perm_insertionSort pairLE l

theorem sortPairs_sorted (l : List CandidatePair) : List.Sorted pairLE (sortPairs l) :=
  List.sorted_insertionSort pairLE l

theorem prio_desc_of_sorted {l : List CandidatePair} (h : List.Sorted pairLE l) :
    l.Pairwise (fun p q => q.prio ≤ p.prio) := by
  apply List.Pairwise.imp ?_ h
  intro p q hle
  unfold pairLE at hle
  omega

theorem firstIdx_spec {p : α → Bool} :
    ∀ {l : List α} {i : Nat}, firstIdx p l = some i →
      ∃ x, l.get? i = some x ∧ p x = true := by
  intro l
  induction l with
  | nil => intro i h; simp [firstIdx] at h
  | cons x xs ih =>
    intro i h
    unfold firstIdx at h
    by_cases hp : p x = true
    · rw [if_pos hp] at h
      injection h with h
      subst h
      exact ⟨x, rfl, hp⟩
    · rw [if_neg hp] at h
      cases hxs : firstIdx p xs with
      | none => rw [hxs] at h; cases h
      | some j =>
        rw [hxs] at h
        simp only [Option.map_some'] at h
        injection h with h
        subst h
        obtain ⟨y, hy, hpy⟩ := ih hxs
        exact ⟨y, by simpa using hy, hpy⟩

theorem firstIdx_lt {p : α → Bool} {l : List α} {i : Nat} (h : firstIdx p l = some i) :
    i < l.length := by
  obtain ⟨x, hx, _⟩ := firstIdx_spec h
  by_contra hge
  rw [List.get?_eq_none.mpr (by omega)] at hx
  cases hx

theorem firstIdx_cons (p : α → Bool) (x : α) (xs : List α) :
    firstIdx p (x :: xs) = if p x then some 0 else (firstIdx p xs).map (· + 1) := rfl

theorem firstIdx_append_right {p : α → Bool} :
    ∀ {l1 : List α} (l2 : List α), (∀ x ∈ l1, p x = false) →
      firstIdx p (l1 ++ l2) = (firstIdx p l2).map (· + l1.length) := by
  intro l1
  induction l1 with
  | nil => intro l2 _; simp
  | cons x xs ih =>
    intro l2 h
    rw [List.cons_append, firstIdx_cons]
    rw [h x (List.mem_cons_self _ _)]
    simp only [Bool.false_eq_true, if_false]
    rw [ih l2 (fun y hy => h y (List.mem_cons_of_mem _ hy))]
    cases firstIdx p l2 with
    | none => simp
    | some j =>
      simp only [Option.map_some', List.length_cons]
      congr 1

theorem idxsWhere_lt {p : α → Bool} :
    ∀ {l : List α}, ∀ i ∈ idxsWhere p l, i < l.length := by
  intro l
  induction l with
  | nil => intro i h; simp [idxsWhere] at h
  | cons x xs ih =>
    intro i h
    unfold idxsWhere at h
    rw [List.mem_append] at h
    rcases h with h | h
    · by_cases hp : p x = true
      · rw [if_pos hp] at h
        simp at h
        simp [h]
      · rw [if_neg hp] at h
        simp at h
    · rw [List.mem_map] at h
      obtain ⟨j, hj, hij⟩ := h
      have := ih j hj
      simp only [List.length_cons]
      omega

theorem idxsWhere_length_le {p : α → Bool} :
    ∀ {l : List α}, (idxsWhere p l).length ≤ l.length := by
  intro l
  induction l with
  | nil => simp [idxsWhere]
  | cons x xs ih =>
    rw [show idxsWhere p (x :: xs) =
      (if p x then [0] else []) ++ (idxsWhere p xs).map (· + 1) from rfl]
    by_cases hp : p x = true <;> simp [hp] <;> omega

theorem candAt_append {L : List Candidate} {x : Candidate} {i : Nat} (h : i < L.length) :
    candAt (L ++ [x]) i = candAt L i := by
  unfold candAt
  rw [List.get?_append h]

theorem candAt_get {L : List Candidate} {i : Nat} {x : Candidate} (h : L.get? i = some x) :
    candAt L i = x := by
  unfold candAt
  rw [h]
  rfl

theorem candAt_set_base {L : List Candidate} {i : Nat} {x x' : Candidate}
    (hx : L.get? i = some x) (hb : x'.base = x.base) (j : Nat) :
    (candAt (L.set i x') j).base = (candAt L j).base := by
  unfold candAt
  rw [List.get?_set]
  by_cases hij : i = j
  · subst hij
    rw [if_pos rfl, hx]
    simpa using hb
  · rw [if_neg hij]

theorem candAt_set_addr {L : List Candidate} {i : Nat} {x x' : Candidate}
    (hx : L.get? i = some x) (ha : x'.addr = x.addr) (j : Nat) :
    (candAt (L.set i x') j).addr = (candAt L j).addr := by
  unfold candAt
  rw [List.get?_set]
  by_cases hij : i = j
  · subst hij
    rw [if_pos rfl, hx]
    simpa using ha
  · rw [if_neg hij]

theorem pkey_congr (L L' R R' : List Candidate) (p : CandidatePair)
    (hb : (candAt L' p.localIdx).base = (candAt L p.localIdx).base)
    (ha : (candAt R' p.remoteIdx).addr = (candAt R p.remoteIdx).addr) :
    pkey L' R' p = pkey L R p := by
  unfold pkey CandidatePair.localCandidate CandidatePair.remoteCandidate
  rw [hb, ha]

/-! ## form_pairs establishes the pair-table invariant -/

theorem pkey_symm_ne {L R : List Candidate} {p q : CandidatePair}
    (h : pkey L R p ≠ pkey L R q) : pkey L R q ≠ pkey L R p :=
  fun heq => h heq.symm

theorem formPairs_ok (a : IceAgent) (lids rids : List Nat)
    (hl : ∀ i ∈ lids, i < a.localCandidates.length)
    (hr : ∀ i ∈ rids, i < a.remoteCandidates.length)
    (hu : a.candidatePairs.Pairwise (fun p q =>
      pkey a.localCandidates a.remoteCandidates p ≠
        pkey a.localCandidates a.remoteCandidates q))
    (hb : ∀ p ∈ a.candidatePairs,
      p.localIdx < a.localCandidates.length ∧ p.remoteIdx < a.remoteCandidates.length) :
    pairTableOk (a.formPairs lids rids) := by
  rw [formPairs_eq]
  have houter_u := @outerPairs_unique a.localCandidates a.remoteCandidates a.controlling lids
    rids a.candidatePairs hu
  have houter_b : ∀ y ∈ outerPairs a.localCandidates a.remoteCandidates a.controlling lids
      rids a.candidatePairs,
      y.localIdx < a.localCandidates.length ∧ y.remoteIdx < a.remoteCandidates.length := by
    apply outerPairs_forall ?_ hb
    intro li hli ri hri
    exact ⟨hl li hli, hr ri hri⟩
  have hperm := sortPairs_perm (outerPairs a.localCandidates a.remoteCandidates a.controlling
    lids rids a.candidatePairs)
  have hsorted_u : (sortPairs (outerPairs a.localCandidates a.remoteCandidates a.controlling
      lids rids a.candidatePairs)).Pairwise (fun p q =>
      pkey a.localCandidates a.remoteCandidates p ≠
        pkey a.localCandidates a.remoteCandidates q) :=
    (hperm.pairwise_iff (fun h => pkey_symm_ne h)).mpr houter_u
  refine ⟨?_, ?_, ?_, ?_⟩
  · unfold pairsUniqueKeys
    exact List.Pairwise.sublist (List.take_sublist _ _) hsorted_u
  · unfold pairsSortedByPrio
    exact List.Pairwise.sublist (List.take_sublist _ _)
      (prio_desc_of_sorted (sortPairs_sorted _))
  · unfold pairsCapped
    simp only [List.length_take]
    exact Nat.min_le_left _ _
  · intro p hp
    have hp2 : p ∈ sortPairs (outerPairs a.localCandidates a.remoteCandidates a.controlling
        lids rids a.candidatePairs) := (List.take_sublist _ _).subset hp
    exact houter_b p (hperm.subset hp2)

/-- The pair table invariant in terms of raw fields, for transport. -/
theorem addLocalFinish_ok (a : IceAgent) (c : Candidate)
    (hu : a.candidatePairs.Pairwise (fun p q =>
      pkey a.localCandidates a.remoteCandidates p ≠
        pkey a.localCandidates a.remoteCandidates q))
    (hb : ∀ p ∈ a.candidatePairs,
      p.localIdx < a.localCandidates.length ∧ p.remoteIdx < a.remoteCandidates.length) :
    pairTableOk (a.addLocalFinish c).2 := by
  unfold IceAgent.addLocalFinish
  dsimp only
  apply formPairs_ok
  · intro i hi
    simp only [List.mem_singleton] at hi
    subst hi
    simp only [List.length_append, List.length_singleton]
    omega
  · intro i hi
    exact idxsWhere_lt i hi
  · dsimp only
    apply List.Pairwise.imp_of_mem ?_ hu
    intro p q hp hq hne
    rw [pkey_congr a.localCandidates (a.localCandidates ++ [c]) a.remoteCandidates
        a.remoteCandidates p (by rw [candAt_append (hb p hp).1]) rfl,
      pkey_congr a.localCandidates (a.localCandidates ++ [c]) a.remoteCandidates
        a.remoteCandidates q (by rw [candAt_append (hb q hq).1]) rfl]
    exact hne
  · intro p hp
    have h2 := hb p hp
    refine ⟨?_, h2.2⟩
    simp only [List.length_append, List.length_singleton]
    omega

/-- C4 part: add_local_candidate preserves the pair-table invariant. -/
theorem addLocal_preserves_ok (a : IceAgent) (c : Candidate) (h : pairTableOk a) :
    pairTableOk (a.addLocalCandidate c).2 := by
  obtain ⟨hu, hs, hc, hb⟩ := h
  unfold IceAgent.addLocalCandidate
  by_cases hlite : (a.iceLite && !(c.kind == CandidateKind.Host)) = true
  · rw [if_pos hlite]
    exact ⟨hu, hs, hc, hb⟩
  · rw [if_neg hlite]
    dsimp only
    split
    · next idx hfi =>
      split
      · exact ⟨hu, hs, hc, hb⟩
      · obtain ⟨x, hx, hpx⟩ := firstIdx_spec hfi
        have hcand : candAt a.localCandidates idx = x := candAt_get hx
        have hbase : ∀ j, (candAt (a.localCandidates.set idx
            { candAt a.localCandidates idx with discarded := true }) j).base =
            (candAt a.localCandidates j).base := by
          intro j
          exact candAt_set_base hx (by rw [hcand]) j
        apply addLocalFinish_ok
        · dsimp only
          unfold IceAgent.discardCandidatePairs
          dsimp only
          apply List.Pairwise.sublist (List.filter_sublist _)
          apply List.Pairwise.imp_of_mem ?_ hu
          intro p q hp hq hne
          rw [pkey_congr a.localCandidates (a.localCandidates.set idx
              { candAt a.localCandidates idx with discarded := true }) a.remoteCandidates
              a.remoteCandidates p (hbase p.localIdx) rfl,
            pkey_congr a.localCandidates (a.localCandidates.set idx
              { candAt a.localCandidates idx with discarded := true }) a.remoteCandidates
              a.remoteCandidates q (hbase q.localIdx) rfl]
          exact hne
        · dsimp only
          unfold IceAgent.discardCandidatePairs
          dsimp only
          intro p hp
          have hp2 := (List.filter_sublist _).subset hp
          have h2 := hb p hp2
          rw [List.length_set]
          exact h2
    · next hfi =>
      exact addLocalFinish_ok a _ hu hb

/-- C4 part: add_remote_candidate preserves the pair-table invariant. -/
theorem addRemote_preserves_ok (a : IceAgent) (c : Candidate) (h : pairTableOk a) :
    pairTableOk (a.addRemoteCandidate c).2 := by
  obtain ⟨hu, hs, hc, hb⟩ := h
  unfold IceAgent.addRemoteCandidate
  by_cases hcomp : (!(c.componentId == 1)) = true
  · rw [if_pos hcomp]
    exact ⟨hu, hs, hc, hb⟩
  · rw [if_neg hcomp]
    dsimp only
    split
    · next idx hfi =>
      obtain ⟨x, hx, hpx⟩ := firstIdx_spec hfi
      have haddr : x.addr = c.addr := by
        simp only [Bool.and_eq_true, beq_iff_eq] at hpx
        exact hpx.1.1.2
      have haddrs : ∀ j, (candAt (a.remoteCandidates.set idx c) j).addr =
          (candAt a.remoteCandidates j).addr := by
        intro j
        exact candAt_set_addr hx (by rw [haddr]) j
      apply formPairs_ok
      · intro i hi
        exact idxsWhere_lt i hi
      · intro i hi
        simp only [List.mem_singleton] at hi
        subst hi
        dsimp only
        rw [List.length_set]
        exact firstIdx_lt hfi
      · dsimp only
        apply List.Pairwise.imp_of_mem ?_ hu
        intro p q hp hq hne
        rw [pkey_congr a.localCandidates a.localCandidates a.remoteCandidates
            (a.remoteCandidates.set idx c) p rfl (haddrs p.remoteIdx),
          pkey_congr a.localCandidates a.localCandidates a.remoteCandidates
            (a.remoteCandidates.set idx c) q rfl (haddrs q.remoteIdx)]
        exact hne
      · dsimp only
        intro p hp
        rw [List.length_set]
        exact hb p hp
    · next hfi =>
      apply formPairs_ok
      · intro i hi
        exact idxsWhere_lt i hi
      · intro i hi
        simp only [List.mem_singleton] at hi
        subst hi
        dsimp only
        simp only [List.length_append, List.length_singleton]
        omega
      · dsimp only
        apply List.Pairwise.imp_of_mem ?_ hu
        intro p q hp hq hne
        rw [pkey_congr a.localCandidates a.localCandidates a.remoteCandidates
            (a.remoteCandidates ++ [c]) p rfl (by rw [candAt_append (hb p hp).2]),
          pkey_congr a.localCandidates a.localCandidates a.remoteCandidates
            (a.remoteCandidates ++ [c]) q rfl (by rw [candAt_append (hb q hq).2])]
        exact hne
      · dsimp only
        intro p hp
        have h2 := hb p hp
        refine ⟨h2.1, ?_⟩
        simp only [List.length_append, List.length_singleton]
        omega

/-- C4 part: invalidate_candidate preserves the pair-table invariant. -/
theorem invalidate_preserves_ok (a : IceAgent) (c : Candidate) (h : pairTableOk a) :
    pairTableOk (a.invalidateCandidate c).2 := by
  obtain ⟨hu, hs, hc, hb⟩ := h
  unfold IceAgent.invalidateCandidate
  split
  · next idx hfi =>
    dsimp only
    split
    · obtain ⟨x, hx, hpx⟩ := firstIdx_spec hfi
      have hcand : candAt a.localCandidates idx = x := candAt_get hx
      have hbase : ∀ j, (candAt (a.localCandidates.set idx
          { candAt a.localCandidates idx with discarded := true }) j).base =
          (candAt a.localCandidates j).base := by
        intro j
        exact candAt_set_base hx (by rw [hcand]) j
      unfold IceAgent.discardCandidatePairs
      dsimp only
      refine ⟨?_, ?_, ?_, ?_⟩
      · unfold pairsUniqueKeys
        dsimp only
        apply List.Pairwise.sublist (List.filter_sublist _)
        apply List.Pairwise.imp_of_mem ?_ hu
        intro p q hp hq hne
        rw [pkey_congr a.localCandidates (a.localCandidates.set idx
            { candAt a.localCandidates idx with discarded := true }) a.remoteCandidates
            a.remoteCandidates p (hbase p.localIdx) rfl,
          pkey_congr a.localCandidates (a.localCandidates.set idx
            { candAt a.localCandidates idx with discarded := true }) a.remoteCandidates
            a.remoteCandidates q (hbase q.localIdx) rfl]
        exact hne
      · unfold pairsSortedByPrio
        dsimp only
        exact List.Pairwise.sublist (List.filter_sublist _) hs
      · unfold pairsCapped
        dsimp only
        calc (a.candidatePairs.filter (fun p => p.localIdx != idx)).length
            ≤ a.candidatePairs.length := (List.filter_sublist _).length_le
          _ ≤ _ := hc
      · intro p hp
        have hp2 := (List.filter_sublist _).subset hp
        have h2 := hb p hp2
        rw [List.length_set]
        exact h2
    · exact ⟨hu, hs, hc, hb⟩
  · exact ⟨hu, hs, hc, hb⟩

/-! ## Sort-order preservation through the STUN paths -/

theorem sorted_of_map_prio_eq {l1 l2 : List CandidatePair}
    (h : l1.map (fun p => p.prio) = l2.map (fun p => p.prio))
    (hs : l2.Pairwise (fun p q => q.prio ≤ p.prio)) :
    l1.Pairwise (fun p q => q.prio ≤ p.prio) := by
  have h2 : (l2.map (fun p => p.prio)).Pairwise (fun x y => y ≤ x) :=
    List.pairwise_map.mpr hs
  rw [← h] at h2
  exact List.pairwise_map.mp h2

theorem set_pairAt_map_prio (l : List CandidatePair) (i : Nat) (y : CandidatePair)
    (hp : y.prio = (pairAt l i).prio) :
    (l.set i y).map (fun p => p.prio) = l.map (fun p => p.prio) := by
  induction l generalizing i with
  | nil => simp
  | cons z rest ih =>
    cases i with
    | zero =>
      have hz : pairAt (z :: rest) 0 = z := rfl
      rw [hz] at hp
      simp [hp]
    | succ j =>
      have hz : pairAt (z :: rest) (j + 1) = pairAt rest j := rfl
      rw [hz] at hp
      simp only [List.set_cons_succ, List.map_cons]
      rw [ih j hp]

theorem updateFirst_const_map_prio {pred : CandidatePair → Bool} {x y : CandidatePair} :
    ∀ {l : List CandidatePair}, l.find? pred = some x → y.prio = x.prio →
      (updateFirst pred (fun _ => y) l).map (fun p => p.prio) =
        l.map (fun p => p.prio) := by
  intro l
  induction l with
  | nil => intro h _; simp [List.find?] at h
  | cons z rest ih =>
    intro hfind hp
    unfold updateFirst
    by_cases hz : pred z = true
    · rw [if_pos hz]
      rw [List.find?_cons_of_pos _ hz] at hfind
      injection hfind with hfind
      subst hfind
      simp [hp]
    · rw [if_neg hz]
      rw [List.find?_cons_of_neg _ (by simpa using hz)] at hfind
      simp only [List.map_cons]
      rw [ih hfind hp]

theorem attemptNomination_sorted (a : IceAgent)
    (hs : a.candidatePairs.Pairwise (fun p q => q.prio ≤ p.prio)) :
    (a.attemptNomination).candidatePairs.Pairwise (fun p q => q.prio ≤ p.prio) := by
  unfold IceAgent.attemptNomination
  split
  · exact hs
  · next i m heq =>
    dsimp only
    split
    · exact hs
    · apply sorted_of_map_prio_eq ?_ hs
      exact set_pairAt_map_prio _ _ _ rfl

theorem clientBindingRequest_sorted (a : IceAgent) (now pairIdx : Nat) (a2 : IceAgent)
    (hs : a.candidatePairs.Pairwise (fun p q => q.prio ≤ p.prio))
    (h : a.stunClientBindingRequest now pairIdx = some a2) :
    a2.candidatePairs.Pairwise (fun p q => q.prio ≤ p.prio) := by
  unfold IceAgent.stunClientBindingRequest at h
  split at h
  · cases h
  · injection h with h
    subst h
    dsimp only
    apply sorted_of_map_prio_eq ?_ hs
    exact set_pairAt_map_prio _ _ _ rfl


theorem serverRequest_sorted (a : IceAgent) (now : Nat) (req : StunRequest) (a2 : IceAgent)
    (hs : a.candidatePairs.Pairwise (fun p q => q.prio ≤ p.prio))
    (h : a.stunServerHandleRequest now req = some a2) :
    a2.candidatePairs.Pairwise (fun p q => q.prio ≤ p.prio) := by
  unfold IceAgent.stunServerHandleRequest at h
  split at h
  · cases h
  · split at h
    · injection h with h; subst h; exact hs
    · split at h
      · injection h with h; subst h; exact hs
      · split at h
        next a1 remoteIdx heq1 =>
        have hs1 : a1.candidatePairs.Pairwise (fun p q => q.prio ≤ p.prio) := by
          have hp : a1.candidatePairs = a.candidatePairs := by
            split at heq1
            · injection heq1 with h1 h2
              subst h1; rfl
            · dsimp only at heq1
              injection heq1 with h1 h2
              subst h1; rfl
          rw [hp]; exact hs
        dsimp only at h
        split at h
        · cases h
        · next localIdx hloc =>
          split at h
          · cases h
          · next pair0 hfind =>
            split at h
            · cases h
            · injection h with h
              subst h
              dsimp only
              refine sorted_of_map_prio_eq (updateFirst_const_map_prio hfind ?_) ?_
              · split <;> rfl
              · split
                · exact hs1
                · exact prio_desc_of_sorted (sortPairs_sorted _)

theorem clientResponse_sorted (a : IceAgent) (now : Nat) (m : StunMessage) (a2 : IceAgent)
    (hs : a.candidatePairs.Pairwise (fun p q => q.prio ≤ p.prio))
    (h : a.stunClientHandleResponse now m = some a2) :
    a2.candidatePairs.Pairwise (fun p q => q.prio ≤ p.prio) := by
  unfold IceAgent.stunClientHandleResponse at h
  dsimp only at h
  split at h
  · injection h with h; subst h; exact hs
  · split at h
    · cases h
    · split at h
      all_goals dsimp only at h
      all_goals injection h with h
      all_goals subst h
      all_goals dsimp only
      all_goals exact sorted_of_map_prio_eq (set_pairAt_map_prio _ _ _ rfl) hs

theorem serverMessage_sorted (a : IceAgent) (now : Nat) (s d : SocketAddr) (m : StunMessage)
    (a2 : IceAgent)
    (hs : a.candidatePairs.Pairwise (fun p q => q.prio ≤ p.prio))
    (h : a.stunServerHandleMessage now s d m = some a2) :
    a2.candidatePairs.Pairwise (fun p q => q.prio ≤ p.prio) := by
  unfold IceAgent.stunServerHandleMessage at h
  split at h
  · cases h
  · split at h
    · cases h
    · dsimp only at h
      split at h
      · exact serverRequest_sorted _ _ _ _ hs h
      · injection h with h; subst h; exact hs

theorem sweep_sorted (a : IceAgent) (now : Nat) (a2 : IceAgent)
    (hs : a.candidatePairs.Pairwise (fun p q => q.prio ≤ p.prio))
    (h : a.handleTimeoutSweep now = some a2) :
    a2.candidatePairs.Pairwise (fun p q => q.prio ≤ p.prio) := by
  unfold IceAgent.handleTimeoutSweep at h
  dsimp only at h
  have hs1 : (a.candidatePairs.filter (fun p => p.isStillPossible now)).Pairwise
      (fun p q => q.prio ≤ p.prio) :=
    List.Pairwise.sublist (List.filter_sublist _) hs
  split at h
  · injection h with h; subst h; exact hs1
  · split at h
    · injection h with h; subst h; exact hs1
    · split at h
      · exact clientBindingRequest_sorted _ _ _ _ hs1 h
      · injection h with h; subst h; exact hs1

theorem timeoutTail_sorted (a : IceAgent) (now : Nat) (a2 : IceAgent)
    (hs : a.candidatePairs.Pairwise (fun p q => q.prio ≤ p.prio))
    (h : a.handleTimeoutTail now = some a2) :
    a2.candidatePairs.Pairwise (fun p q => q.prio ≤ p.prio) := by
  unfold IceAgent.handleTimeoutTail at h
  split at h
  · split at h
    · injection h with h; subst h
      exact attemptNomination_sorted _ hs
    · exact sweep_sorted _ _ _ hs h
  · exact sweep_sorted _ _ _ hs h

theorem timeoutInner_sorted (a : IceAgent) (now : Nat) (a2 : IceAgent)
    (hs : a.candidatePairs.Pairwise (fun p q => q.prio ≤ p.prio))
    (h : a.handleTimeoutInner now = some a2) :
    a2.candidatePairs.Pairwise (fun p q => q.prio ≤ p.prio) := by
  unfold IceAgent.handleTimeoutInner at h
  dsimp only at h
  split at h
  · injection h with h; subst h; exact hs
  · split at h
    · split at h
      · exact serverRequest_sorted _ _ _ _ (by exact hs) h
      · exact timeoutTail_sorted _ _ _ (by exact hs) h
    · exact timeoutTail_sorted _ _ _ (by exact hs) h

theorem handleTimeout_sorted (a : IceAgent) (now : Nat) (a2 : IceAgent)
    (hs : a.candidatePairs.Pairwise (fun p q => q.prio ≤ p.prio))
    (h : a.handleTimeout now = some a2) :
    a2.candidatePairs.Pairwise (fun p q => q.prio ≤ p.prio) := by
  unfold IceAgent.handleTimeout at h
  dsimp only at h
  split at h
  · refine timeoutInner_sorted _ now a2 ?_ h
    unfold IceAgent.setConnectionState
    split
    · exact hs
    · exact hs
  · exact timeoutInner_sorted _ now a2 hs h

theorem handleReceive_sorted (a : IceAgent) (now : Nat) (r : Receive) (a2 : IceAgent)
    (hs : a.candidatePairs.Pairwise (fun p q => q.prio ≤ p.prio))
    (h : a.handleReceive now r = some a2) :
    a2.candidatePairs.Pairwise (fun p q => q.prio ≤ p.prio) := by
  unfold IceAgent.handleReceive at h
  split at h
  · injection h with h; subst h; exact hs
  · split at h
    · cases h
    · injection h with h; subst h; exact hs
    · split at h
      · exact serverMessage_sorted _ _ _ _ _ _ hs h
      · split at h
        · exact clientResponse_sorted _ _ _ _ hs h
        · injection h with h; subst h; exact hs

/-- C4: after add_local_candidate, add_remote_candidate and invalidate_candidate
the candidate-pair table is well-formed: at most one pair per key of (local
candidate base, remote candidate address), sorted by descending pair priority,
at most max_candidate_pairs entries, and all candidate indices in bounds.
handle_receive and handle_timeout preserve the descending-priority order (but
not the key-uniqueness and cap bounds: their STUN-server path inserts pairs
without key pruning or trimming, see the counterexample). -/
theorem C4_pair_table_amended :
    (∀ (a : IceAgent) (c : Candidate), pairTableOk a →
      pairTableOk (a.addLocalCandidate c).2) ∧
    (∀ (a : IceAgent) (c : Candidate), pairTableOk a →
      pairTableOk (a.addRemoteCandidate c).2) ∧
    (∀ (a : IceAgent) (c : Candidate), pairTableOk a →
      pairTableOk (a.invalidateCandidate c).2) ∧
    (∀ (a : IceAgent) (now : Nat) (r : Receive) (a2 : IceAgent),
      a.candidatePairs.Pairwise (fun p q => q.prio ≤ p.prio) →
      a.handleReceive now r = some a2 →
      a2.candidatePairs.Pairwise (fun p q => q.prio ≤ p.prio)) ∧
    (∀ (a : IceAgent) (now : Nat) (a2 : IceAgent),
      a.candidatePairs.Pairwise (fun p q => q.prio ≤ p.prio) →
      a.handleTimeout now = some a2 →
      a2.candidatePairs.Pairwise (fun p q => q.prio ≤ p.prio)) :=
  ⟨addLocal_preserves_ok, addRemote_preserves_ok, invalidate_preserves_ok,
    handleReceive_sorted, handleTimeout_sorted⟩

theorem C4_pair_table_witness :
    pairTableOk (baseAgent.addLocalCandidate (Candidate.host addrV4a)).2 ∧
    pairTableOk (baseAgent.addRemoteCandidate (Candidate.host addrV4b)).2 ∧
    pairTableOk (baseAgent.invalidateCandidate (Candidate.host addrV4a)).2 ∧
    credAgent.candidatePairs.Pairwise (fun p q => q.prio ≤ p.prio) ∧
    c4TickAgent.candidatePairs.Pairwise (fun p q => q.prio ≤ p.prio) :=
  ⟨C4_pair_table_amended.1 baseAgent (Candidate.host addrV4a) (by decide),
   C4_pair_table_amended.2.1 baseAgent (Candidate.host addrV4b) (by decide),
   C4_pair_table_amended.2.2.1 baseAgent (Candidate.host addrV4a) (by decide),
   C4_pair_table_amended.2.2.2.1 credAgent 100 ⟨addrV4a, addrV4b, Datagram.other⟩
     credAgent (by decide) rfl,
   C4_pair_table_amended.2.2.2.2 c4TickAgent 100 c4TickAgent (by decide) rfl⟩

theorem bestNom_eq_none : ∀ {l : List CandidatePair}, bestNom l = none →
    ∀ p ∈ l, eligiblePair p = false := by
  intro l
  induction l with
  | nil => intro _ p hp; cases hp
  | cons x xs ih =>
    intro h p hp
    rw [show bestNom (x :: xs) = (match bestNom xs with
      | none => if eligiblePair x then some (0, x.prio) else none
      | some (j, m) =>
        if eligiblePair x && decide (m < x.prio) then some (0, x.prio)
        else some (j + 1, m)) from rfl] at h
    cases hb : bestNom xs with
    | none =>
      rw [hb] at h
      dsimp only at h
      split at h
      · cases h
      · next hx =>
        cases hp with
        | head => exact Bool.eq_false_iff.mpr hx
        | tail _ hmem => exact ih hb p hmem
    | some jm =>
      rw [hb] at h
      dsimp only at h
      split at h <;> cases h

theorem bestNom_spec : ∀ {l : List CandidatePair} {i m : Nat},
    bestNom l = some (i, m) →
    i < l.length ∧ eligiblePair (pairAt l i) = true ∧ (pairAt l i).prio = m ∧
      ∀ p ∈ l, eligiblePair p = true → p.prio ≤ m := by
  intro l
  induction l with
  | nil => intro i m h; cases h
  | cons x xs ih =>
    intro i m h
    rw [show bestNom (x :: xs) = (match bestNom xs with
      | none => if eligiblePair x then some (0, x.prio) else none
      | some (j, m) =>
        if eligiblePair x && decide (m < x.prio) then some (0, x.prio)
        else some (j + 1, m)) from rfl] at h
    cases hb : bestNom xs with
    | none =>
      rw [hb] at h
      dsimp only at h
      split at h
      · next hx =>
        injection h with h
        injection h with h1 h2
        subst h1; subst h2
        refine ⟨Nat.succ_pos _, hx, rfl, ?_⟩
        intro p hp hpe
        cases hp with
        | head => exact Nat.le_refl _
        | tail _ hmem => rw [bestNom_eq_none hb p hmem] at hpe; cases hpe
      · cases h
    | some jm =>
      obtain ⟨j, m0⟩ := jm
      rw [hb] at h
      dsimp only at h
      obtain ⟨hj, helig, hprio, hmax⟩ := ih hb
      split at h
      · next hcond =>
        injection h with h
        injection h with h1 h2
        subst h1; subst h2
        have hcond2 := hcond
        rw [Bool.and_eq_true] at hcond2
        obtain ⟨hx, hm⟩ := hcond2
        have hm0 : m0 < x.prio := of_decide_eq_true hm
        refine ⟨Nat.succ_pos _, hx, rfl, ?_⟩
        intro p hp hpe
        cases hp with
        | head => exact Nat.le_refl _
        | tail _ hmem => exact Nat.le_trans (hmax p hmem hpe) (Nat.le_of_lt hm0)
      · next hcond =>
        injection h with h
        injection h with h1 h2
        subst h1; subst h2
        refine ⟨Nat.succ_lt_succ hj, helig, hprio, ?_⟩
        intro p hp hpe
        cases hp with
        | head =>
          by_cases hlt : m0 < x.prio
          · exact absurd (by rw [Bool.and_eq_true]; exact ⟨hpe, decide_eq_true hlt⟩) hcond
          · exact Nat.le_of_not_lt hlt
        | tail _ hmem => exact hmax p hmem hpe

theorem pairAt_set_self (l : List CandidatePair) (i : Nat) (y : CandidatePair)
    (h : i < l.length) : pairAt (l.set i y) i = y := by
  unfold pairAt
  rw [List.get?_set_eq]
  rw [List.get?_eq_get h]
  rfl

theorem attemptNomination_sched (a : IceAgent) :
    (a.attemptNomination).scheduledNominationCheck = a.scheduledNominationCheck := by
  unfold IceAgent.attemptNomination
  split
  · rfl
  · dsimp only
    split
    · rfl
    · rfl

theorem timeoutTail_nominates (b : IceAgent) (now s : Nat)
    (hsched : b.scheduledNominationCheck = some s) (hdue : s ≤ now) :
    b.handleTimeoutTail now =
      some ({ b with scheduledNominationCheck := none } : IceAgent).attemptNomination := by
  unfold IceAgent.handleTimeoutTail
  rw [hsched]
  dsimp only
  rw [if_pos hdue]

theorem timeoutInner_nominates (b : IceAgent) (now s : Nat)
    (hsched : b.scheduledNominationCheck = some s) (hdue : s ≤ now)
    (hpace : ∀ ln, b.lastNow = some ln → ln + TIMING_ADVANCE ≤ now)
    (hqueue : b.stunServerQueue = []) :
    b.handleTimeoutInner now =
      some ({ b with lastNow := some now, stunServerQueue := [], scheduledNominationCheck := none } : IceAgent).attemptNomination := by
  unfold IceAgent.handleTimeoutInner
  have hblocked : (match b.lastNow with
      | some ln => decide (now < ln + TIMING_ADVANCE)
      | none => false) = false := by
    cases hln : b.lastNow with
    | none => rfl
    | some ln =>
      show decide (now < ln + TIMING_ADVANCE) = false
      rw [decide_eq_false_iff_not]
      have := hpace ln hln
      omega
  rw [hblocked]
  rw [if_neg (by exact fun hf => Bool.false_ne_true hf)]
  by_cases hc : ({ b with lastNow := some now } : IceAgent).remoteCredentials.isSome = true
  · rw [if_pos hc]
    dsimp only
    rw [hqueue]
    rw [show List.dropWhile (fun r : StunRequest => decide (STUN_TIMEOUT ≤ now - r.now)) [] = [] from rfl]
    dsimp only
    rw [timeoutTail_nominates ({ b with lastNow := some now, stunServerQueue := [] } : IceAgent) now s (by exact hsched) hdue]
  · rw [if_neg hc]
    rw [timeoutTail_nominates ({ b with lastNow := some now } : IceAgent) now s (by exact hsched) hdue]
    rw [← hqueue]

theorem handleTimeout_nominates (a : IceAgent) (now s : Nat)
    (hsched : a.scheduledNominationCheck = some s) (hdue : s ≤ now)
    (hpace : ∀ ln, a.lastNow = some ln → ln + TIMING_ADVANCE ≤ now)
    (hqueue : a.stunServerQueue = []) :
    ∃ a2, a.handleTimeout now = some a2 ∧
      a2.scheduledNominationCheck = none ∧
      (∀ i m, bestNom a.candidatePairs = some (i, m) →
        i < a.candidatePairs.length ∧
        eligiblePair (pairAt a.candidatePairs i) = true ∧
        (∀ p ∈ a.candidatePairs, eligiblePair p = true →
          p.prio ≤ (pairAt a.candidatePairs i).prio) ∧
        (pairAt a2.candidatePairs i).nominated = true) ∧
      ((∃ p ∈ a.candidatePairs, eligiblePair p = true) →
        (bestNom a.candidatePairs).isSome = true) := by
  unfold IceAgent.handleTimeout
  dsimp only
  have key : ∀ b : IceAgent,
      b.scheduledNominationCheck = a.scheduledNominationCheck →
      b.lastNow = a.lastNow →
      b.stunServerQueue = a.stunServerQueue →
      b.candidatePairs = a.candidatePairs →
      ∃ a2, b.handleTimeoutInner now = some a2 ∧
        a2.scheduledNominationCheck = none ∧
        (∀ i m, bestNom a.candidatePairs = some (i, m) →
          i < a.candidatePairs.length ∧
          eligiblePair (pairAt a.candidatePairs i) = true ∧
          (∀ p ∈ a.candidatePairs, eligiblePair p = true →
            p.prio ≤ (pairAt a.candidatePairs i).prio) ∧
          (pairAt a2.candidatePairs i).nominated = true) ∧
        ((∃ p ∈ a.candidatePairs, eligiblePair p = true) →
          (bestNom a.candidatePairs).isSome = true) := by
    intro b hbs hbl hbq hbp
    have hrun := timeoutInner_nominates b now s (hbs.trans hsched) hdue
      (fun ln hln => hpace ln (hbl ▸ hln)) (hbq.trans hqueue)
    refine ⟨_, hrun, ?_, ?_, ?_⟩
    · rw [attemptNomination_sched]
    · intro i m hbn
      obtain ⟨hi, helig, hprio, hmax⟩ := bestNom_spec hbn
      refine ⟨hi, helig, ?_, ?_⟩
      · intro p hp hpe
        rw [hprio]
        exact hmax p hp hpe
      · have hRp : ({ b with lastNow := some now, stunServerQueue := [], scheduledNominationCheck := none } : IceAgent).candidatePairs = a.candidatePairs := hbp
        unfold IceAgent.attemptNomination
        rw [hRp, hbn]
        dsimp only
        split
        · next hnom => exact hnom
        · dsimp only
          rw [pairAt_set_self _ _ _ hi]
          rfl
    · intro hex
      obtain ⟨p, hp, hpe⟩ := hex
      cases hbn : bestNom a.candidatePairs with
      | none => rw [bestNom_eq_none hbn p hp] at hpe; cases hpe
      | some jm => rfl
  split
  · refine key _ ?_ ?_ ?_ ?_ <;>
      (unfold IceAgent.setConnectionState; split <;> rfl)
  · exact key a rfl rfl rfl rfl

/-- C7 (amended): on a controlling agent with a nomination check scheduled
for an instant no later than now, a handle_timeout call at now clears the
schedule and marks the highest-priority eligible pair (Succeeded with at
least one remote binding request) as nominated — provided the call passes
the pacing guard (now is at least Ta after the previous tick) and no queued
STUN server request is pending, both of which otherwise return early before
the nomination step. Every outbound Binding request carries USE-CANDIDATE
exactly when the agent is controlling and the sending pair is nominated. -/
theorem C7_nomination_amended :
    (∀ (a : IceAgent) (now s : Nat),
      a.controlling = true →
      a.scheduledNominationCheck = some s →
      s ≤ now →
      (∀ ln, a.lastNow = some ln → ln + TIMING_ADVANCE ≤ now) →
      a.stunServerQueue = [] →
      ∃ a2, a.handleTimeout now = some a2 ∧
        a2.scheduledNominationCheck = none ∧
        (∀ i m, bestNom a.candidatePairs = some (i, m) →
          i < a.candidatePairs.length ∧
          eligiblePair (pairAt a.candidatePairs i) = true ∧
          (∀ p ∈ a.candidatePairs, eligiblePair p = true →
            p.prio ≤ (pairAt a.candidatePairs i).prio) ∧
          (pairAt a2.candidatePairs i).nominated = true) ∧
        ((∃ p ∈ a.candidatePairs, eligiblePair p = true) →
          (bestNom a.candidatePairs).isSome = true)) ∧
    (∀ (b : IceAgent) (t pairIdx : Nat) (b2 : IceAgent),
      b.stunClientBindingRequest t pairIdx = some b2 →
      ∃ tr, b2.transmit = b.transmit ++ [tr] ∧
        tr.contents.useCandidate =
          (b.controlling && (pairAt b.candidatePairs pairIdx).nominated)) := by
  constructor
  · intro a now s _ hsched hdue hpace hqueue
    exact handleTimeout_nominates a now s hsched hdue hpace hqueue
  · intro b t pairIdx b2 h
    unfold IceAgent.stunClientBindingRequest at h
    split at h
    · cases h
    · injection h with h
      subst h
      exact ⟨_, rfl, rfl⟩

theorem C7_nomination_witness :
    (∃ a2, c7Agent.handleTimeout 1050 = some a2 ∧
      a2.scheduledNominationCheck = none ∧
      (∀ i m, bestNom c7Agent.candidatePairs = some (i, m) →
        i < c7Agent.candidatePairs.length ∧
        eligiblePair (pairAt c7Agent.candidatePairs i) = true ∧
        (∀ p ∈ c7Agent.candidatePairs, eligiblePair p = true →
          p.prio ≤ (pairAt c7Agent.candidatePairs i).prio) ∧
        (pairAt a2.candidatePairs i).nominated = true) ∧
      ((∃ p ∈ c7Agent.candidatePairs, eligiblePair p = true) →
        (bestNom c7Agent.candidatePairs).isSome = true)) ∧
    (∃ tr, ((c7Agent.stunClientBindingRequest 1050 0).getD c7Agent).transmit =
        c7Agent.transmit ++ [tr] ∧
      tr.contents.useCandidate =
        (c7Agent.controlling && (pairAt c7Agent.candidatePairs 0).nominated)) := by
  constructor
  · exact C7_nomination_amended.1 c7Agent 1050 1010 rfl rfl (by omega)
      (fun ln hln => by
        rw [show c7Agent.lastNow = some 1000 from rfl] at hln
        injection hln with h
        subst h
        decide) rfl
  · exact C7_nomination_amended.2 c7Agent 1050 0
      ((c7Agent.stunClientBindingRequest 1050 0).getD c7Agent) rfl

theorem addLocal_second_rejected (a : IceAgent) (c : Candidate)
    (hlite : (a.iceLite && !(c.kind == CandidateKind.Host)) = false)
    (hfp : c.fixedPrio = none)
    (hfresh : ∀ v ∈ a.localCandidates, (v.addr == c.addr && v.base == c.base) = false)
    (hroom : 2 * (sameKindCount a.localCandidates c + 1) ≤
      counterStart c.kind c.addr.isV6) :
    ((a.addLocalCandidate c).2).addLocalCandidate c = (false, (a.addLocalCandidate c).2) := by
  have key : (a.addLocalCandidate c).2.localCandidates =
      a.localCandidates ++ [prefAssigned a c] ∧
      (a.addLocalCandidate c).2.iceLite = a.iceLite := by
    unfold IceAgent.addLocalCandidate
    rw [hlite, if_neg (fun hf => Bool.false_ne_true hf)]
    dsimp only
    rw [firstIdx_eq_none hfresh]
    dsimp only
    unfold IceAgent.addLocalFinish
    dsimp only
    rw [formPairs_eq]
    exact ⟨rfl, rfl⟩
  obtain ⟨kl, ki⟩ := key
  generalize hA : (a.addLocalCandidate c).2 = a1 at kl ki ⊢
  unfold IceAgent.addLocalCandidate
  have hg : (a1.iceLite && !(c.kind == CandidateKind.Host)) = false := by
    rw [ki]; exact hlite
  rw [hg, if_neg (fun hf => Bool.false_ne_true hf)]
  dsimp only
  rw [kl]
  rw [firstIdx_append_right [prefAssigned a c] hfresh]
  rw [show firstIdx (fun v => v.addr == c.addr && v.base == c.base) [prefAssigned a c] =
      some 0 from by rw [firstIdx_cons]; rw [if_pos (by simp [prefAssigned])]]
  dsimp only [Option.map]
  rw [Nat.zero_add]
  rw [show candAt (a.localCandidates ++ [prefAssigned a c]) a.localCandidates.length =
      prefAssigned a c from candAt_get (List.get?_concat_length _ _)]
  have hskc : sameKindCount (a.localCandidates ++ [prefAssigned a c]) c =
      sameKindCount a.localCandidates c + 1 := by
    unfold sameKindCount prefAssigned
    rw [List.filter_append, List.length_append]
    simp
  rw [hskc]
  have hlt : ({ c with localPref := some (counterStart c.kind c.addr.isV6 -
      (sameKindCount a.localCandidates c + 1) * 2) } : Candidate).prio <
      (prefAssigned a c).prio := by
    unfold Candidate.prio prefAssigned
    dsimp only
    rw [hfp]
    dsimp only
    unfold Candidate.prioOfKind
    dsimp only
    simp only [Option.getD_some]
    omega
  rw [if_pos hlt]

theorem innerPairs_cover_mono {L R : List Candidate} {ctrl : Bool} {li : Nat}
    {k : SocketAddr × SocketAddr} {b : Nat} :
    ∀ {rs : List Nat} {ps : List CandidatePair},
      (∃ y ∈ ps, pkey L R y = k ∧ b ≤ y.prio) →
      ∃ y ∈ innerPairs L R ctrl li rs ps, pkey L R y = k ∧ b ≤ y.prio := by
  intro rs
  induction rs with
  | nil => intro ps h; exact h
  | cons ri rs ih =>
    intro ps h
    exact ih (installPair_cover_mono h)

theorem outerPairs_cover_mono {L R : List Candidate} {ctrl : Bool}
    {k : SocketAddr × SocketAddr} {b : Nat} :
    ∀ {ls rids : List Nat} {ps : List CandidatePair},
      (∃ y ∈ ps, pkey L R y = k ∧ b ≤ y.prio) →
      ∃ y ∈ outerPairs L R ctrl ls rids ps, pkey L R y = k ∧ b ≤ y.prio := by
  intro ls
  induction ls with
  | nil => intro rids ps h; exact h
  | cons li ls ih =>
    intro rids ps h
    exact ih (innerPairs_cover_mono h)

theorem outerPairs_cover {L R : List Candidate} {ctrl : Bool} {ri : Nat} :
    ∀ {ls : List Nat} {ps : List CandidatePair}, ∀ li ∈ ls,
      ∃ y ∈ outerPairs L R ctrl ls [ri] ps,
        pkey L R y = ((candAt L li).base, (candAt R ri).addr) ∧
        CandidatePair.calculatePrio ctrl (candAt R ri).prio (candAt L li).prio ≤ y.prio := by
  intro ls
  induction ls with
  | nil => intro ps li h; cases h
  | cons li0 ls ih =>
    intro ps li hli
    show ∃ y ∈ outerPairs L R ctrl ls [ri] (innerPairs L R ctrl li0 [ri] ps), _
    cases hli with
    | head =>
      apply outerPairs_cover_mono
      show ∃ y ∈ installPair L R (CandidatePair.new li0 ri (CandidatePair.calculatePrio ctrl
        (candAt R ri).prio (candAt L li0).prio)) ps, _
      exact installPair_cover
    | tail _ hmem => exact ih li hmem

theorem outerPairs_skip {L R : List Candidate} {ctrl : Bool} {ri : Nat} :
    ∀ {ls : List Nat} {ps : List CandidatePair},
      ps.Pairwise (fun p q => pkey L R p ≠ pkey L R q) →
      (∀ li ∈ ls, ∃ y ∈ ps,
        pkey L R y = ((candAt L li).base, (candAt R ri).addr) ∧
        CandidatePair.calculatePrio ctrl (candAt R ri).prio (candAt L li).prio ≤ y.prio) →
      outerPairs L R ctrl ls [ri] ps = ps := by
  intro ls
  induction ls with
  | nil => intro ps _ _; rfl
  | cons li ls ih =>
    intro ps hu hcov
    show outerPairs L R ctrl ls [ri] (innerPairs L R ctrl li [ri] ps) = ps
    have hstep : innerPairs L R ctrl li [ri] ps = ps := by
      show installPair L R (CandidatePair.new li ri (CandidatePair.calculatePrio ctrl
        (candAt R ri).prio (candAt L li).prio)) ps = ps
      exact installPair_skip hu (hcov li (List.mem_cons_self _ _))
    rw [hstep]
    exact ih hu (fun li2 h2 => hcov li2 (List.mem_cons_of_mem _ h2))

theorem addRemote_second_no_change (a : IceAgent) (c : Candidate)
    (hcomp : (c.componentId == 1) = true)
    (hfound : (c.foundation == "tmp_prflx") = false)
    (hfreshR : ∀ v ∈ a.remoteCandidates, (v.foundation == "tmp_prflx" && v.addr == c.addr &&
      v.prio == c.prio && v.kind == CandidateKind.PeerReflexive) = false)
    (hok : pairTableOk a)
    (hroom : a.candidatePairs.length +
      (idxsWhere (fun v => !v.discarded && v.addr.isV6 == c.addr.isV6)
        a.localCandidates).length ≤ a.maxCandidatePairs.getD 100) :
    ∃ a2, ((a.addRemoteCandidate c).2).addRemoteCandidate c = (true, a2) ∧
      a2.candidatePairs = (a.addRemoteCandidate c).2.candidatePairs ∧
      a2.localCandidates = (a.addRemoteCandidate c).2.localCandidates := by
  have ha1 : a.addRemoteCandidate c =
      (true, ({ a with remoteCandidates := a.remoteCandidates ++ [c] } : IceAgent).formPairs
        (idxsWhere (fun v => !v.discarded && v.addr.isV6 == c.addr.isV6) a.localCandidates)
        [a.remoteCandidates.length]) := by
    unfold IceAgent.addRemoteCandidate
    rw [hcomp, Bool.not_true, if_neg (fun hf => Bool.false_ne_true hf)]
    dsimp only
    rw [firstIdx_eq_none hfreshR]
  set Q := outerPairs a.localCandidates (a.remoteCandidates ++ [c]) a.controlling
      (idxsWhere (fun v => !v.discarded && v.addr.isV6 == c.addr.isV6) a.localCandidates)
      [a.remoteCandidates.length] a.candidatePairs with hQ
  have hcap : Q.length ≤ a.maxCandidatePairs.getD 100 := by
    have h1 := @outerPairs_length a.localCandidates (a.remoteCandidates ++ [c]) a.controlling
      (idxsWhere (fun v => !v.discarded && v.addr.isV6 == c.addr.isV6) a.localCandidates)
      [a.remoteCandidates.length] a.candidatePairs
    rw [← hQ] at h1
    simp only [List.length_singleton, Nat.mul_one] at h1
    omega
  have htake1 : (sortPairs Q).take (a.maxCandidatePairs.getD 100) = sortPairs Q :=
    List.take_of_length_le (by rw [(sortPairs_perm Q).length_eq]; exact hcap)
  have hfa : (a.addRemoteCandidate c).2 =
      { a with remoteCandidates := a.remoteCandidates ++ [c], candidatePairs := sortPairs Q } := by
    rw [ha1]
    dsimp only
    rw [formPairs_eq]
    dsimp only
    rw [← hQ]
    rw [htake1]
  have hcand1 : candAt (a.remoteCandidates ++ [c]) a.remoteCandidates.length = c :=
    candAt_get (List.get?_concat_length _ _)
  have hcand2 : candAt ((a.remoteCandidates ++ [c]) ++ [c])
      (a.remoteCandidates ++ [c]).length = c :=
    candAt_get (List.get?_concat_length _ _)
  have hbQ : ∀ y ∈ Q, y.localIdx < a.localCandidates.length ∧
      y.remoteIdx < (a.remoteCandidates ++ [c]).length := by
    rw [hQ]
    apply outerPairs_forall
    · intro li hli ri hri
      refine ⟨idxsWhere_lt li hli, ?_⟩
      rcases List.mem_singleton.mp hri with rfl
      rw [List.length_append]
      show a.remoteCandidates.length < a.remoteCandidates.length + 1
      omega
    · intro y hy
      obtain ⟨h1, h2⟩ := hok.2.2.2 y hy
      refine ⟨h1, ?_⟩
      rw [List.length_append]
      omega
  have hbP : ∀ y ∈ sortPairs Q, y.localIdx < a.localCandidates.length ∧
      y.remoteIdx < (a.remoteCandidates ++ [c]).length :=
    fun y hy => hbQ y ((sortPairs_perm Q).mem_iff.mp hy)
  have hu0 : a.candidatePairs.Pairwise (fun p q =>
      pkey a.localCandidates (a.remoteCandidates ++ [c]) p ≠
      pkey a.localCandidates (a.remoteCandidates ++ [c]) q) := by
    refine List.Pairwise.imp_of_mem ?_ hok.1
    intro p q hp hq hne
    rw [pkey_congr a.localCandidates a.localCandidates a.remoteCandidates
        (a.remoteCandidates ++ [c]) p rfl
        (by rw [candAt_append (hok.2.2.2 p hp).2]),
      pkey_congr a.localCandidates a.localCandidates a.remoteCandidates
        (a.remoteCandidates ++ [c]) q rfl
        (by rw [candAt_append (hok.2.2.2 q hq).2])]
    exact hne
  have hQu : Q.Pairwise (fun p q =>
      pkey a.localCandidates (a.remoteCandidates ++ [c]) p ≠
      pkey a.localCandidates (a.remoteCandidates ++ [c]) q) := by
    rw [hQ]
    exact outerPairs_unique hu0
  have hPu : (sortPairs Q).Pairwise (fun p q =>
      pkey a.localCandidates (a.remoteCandidates ++ [c]) p ≠
      pkey a.localCandidates (a.remoteCandidates ++ [c]) q) :=
    ((sortPairs_perm Q).pairwise_iff (fun hne => pkey_symm_ne hne)).mpr hQu
  have hcovP : ∀ li ∈ idxsWhere (fun v => !v.discarded && v.addr.isV6 == c.addr.isV6)
      a.localCandidates,
      ∃ y ∈ sortPairs Q,
        pkey a.localCandidates (a.remoteCandidates ++ [c]) y =
          ((candAt a.localCandidates li).base, c.addr) ∧
        CandidatePair.calculatePrio a.controlling c.prio
          (candAt a.localCandidates li).prio ≤ y.prio := by
    intro li hli
    have h1 := @outerPairs_cover a.localCandidates (a.remoteCandidates ++ [c]) a.controlling
      a.remoteCandidates.length
      (idxsWhere (fun v => !v.discarded && v.addr.isV6 == c.addr.isV6) a.localCandidates)
      a.candidatePairs li hli
    rw [← hQ, hcand1] at h1
    obtain ⟨y, hy, hk, hp⟩ := h1
    exact ⟨y, (sortPairs_perm Q).mem_iff.mpr hy, hk, hp⟩
  have hu2 : (sortPairs Q).Pairwise (fun p q =>
      pkey a.localCandidates ((a.remoteCandidates ++ [c]) ++ [c]) p ≠
      pkey a.localCandidates ((a.remoteCandidates ++ [c]) ++ [c]) q) := by
    refine List.Pairwise.imp_of_mem ?_ hPu
    intro p q hp hq hne
    rw [pkey_congr a.localCandidates a.localCandidates (a.remoteCandidates ++ [c])
        ((a.remoteCandidates ++ [c]) ++ [c]) p rfl
        (by rw [candAt_append (hbP p hp).2]),
      pkey_congr a.localCandidates a.localCandidates (a.remoteCandidates ++ [c])
        ((a.remoteCandidates ++ [c]) ++ [c]) q rfl
        (by rw [candAt_append (hbP q hq).2])]
    exact hne
  have hcov2 : ∀ li ∈ idxsWhere (fun v => !v.discarded && v.addr.isV6 == c.addr.isV6)
      a.localCandidates,
      ∃ y ∈ sortPairs Q,
        pkey a.localCandidates ((a.remoteCandidates ++ [c]) ++ [c]) y =
          ((candAt a.localCandidates li).base,
            (candAt ((a.remoteCandidates ++ [c]) ++ [c])
              (a.remoteCandidates ++ [c]).length).addr) ∧
        CandidatePair.calculatePrio a.controlling
          (candAt ((a.remoteCandidates ++ [c]) ++ [c])
            (a.remoteCandidates ++ [c]).length).prio
          (candAt a.localCandidates li).prio ≤ y.prio := by
    intro li hli
    obtain ⟨y, hy, hk, hp⟩ := hcovP li hli
    refine ⟨y, hy, ?_, ?_⟩
    · rw [hcand2]
      rw [pkey_congr a.localCandidates a.localCandidates (a.remoteCandidates ++ [c])
          ((a.remoteCandidates ++ [c]) ++ [c]) y rfl
          (by rw [candAt_append (hbP y hy).2])]
      exact hk
    · rw [hcand2]
      exact hp
  have houter : outerPairs a.localCandidates ((a.remoteCandidates ++ [c]) ++ [c]) a.controlling
      (idxsWhere (fun v => !v.discarded && v.addr.isV6 == c.addr.isV6) a.localCandidates)
      [(a.remoteCandidates ++ [c]).length] (sortPairs Q) = sortPairs Q :=
    outerPairs_skip hu2 hcov2
  have hsorted2 : sortPairs (sortPairs Q) = sortPairs Q := by
    unfold sortPairs
    exact List.Sorted.insertionSort_eq (sortPairs_sorted Q)
  have hfresh2 : ∀ v ∈ a.remoteCandidates ++ [c],
      (v.foundation == "tmp_prflx" && v.addr == c.addr &&
        v.prio == c.prio && v.kind == CandidateKind.PeerReflexive) = false := by
    intro v hv
    rcases List.mem_append.mp hv with hv1 | hv2
    · exact hfreshR v hv1
    · rcases List.mem_singleton.mp hv2 with rfl
      rw [hfound]
      rw [Bool.false_and, Bool.false_and, Bool.false_and]
  rw [hfa]
  unfold IceAgent.addRemoteCandidate
  rw [hcomp, Bool.not_true, if_neg (fun hf => Bool.false_ne_true hf)]
  dsimp only
  rw [firstIdx_eq_none hfresh2]
  dsimp only
  refine ⟨_, rfl, ?_, ?_⟩
  · rw [formPairs_eq]
    dsimp only
    rw [houter, hsorted2, htake1]
  · rw [formPairs_eq]

/-- C9: adding the same candidate twice is idempotent. Locally (fresh
candidate, computed priority, counter headroom) the second
add_local_candidate is rejected outright: it returns false and leaves the
agent — pair table and all assigned local preferences — untouched.
Remotely (component 1, non-peer-reflexive foundation, fresh candidate,
well-formed pair table with cap headroom) the second add_remote_candidate
returns true but forms no new pair: the candidate-pair table and the local
candidates (hence every assigned local preference) are unchanged. -/
theorem C9_idempotent_add :
    (∀ (a : IceAgent) (c : Candidate),
      (a.iceLite && !(c.kind == CandidateKind.Host)) = false →
      c.fixedPrio = none →
      (∀ v ∈ a.localCandidates, (v.addr == c.addr && v.base == c.base) = false) →
      2 * (sameKindCount a.localCandidates c + 1) ≤ counterStart c.kind c.addr.isV6 →
      ((a.addLocalCandidate c).2).addLocalCandidate c = (false, (a.addLocalCandidate c).2)) ∧
    (∀ (a : IceAgent) (c : Candidate),
      (c.componentId == 1) = true →
      (c.foundation == "tmp_prflx") = false →
      (∀ v ∈ a.remoteCandidates, (v.foundation == "tmp_prflx" && v.addr == c.addr &&
        v.prio == c.prio && v.kind == CandidateKind.PeerReflexive) = false) →
      pairTableOk a →
      a.candidatePairs.length +
        (idxsWhere (fun v => !v.discarded && v.addr.isV6 == c.addr.isV6)
          a.localCandidates).length ≤ a.maxCandidatePairs.getD 100 →
      ∃ a2, ((a.addRemoteCandidate c).2).addRemoteCandidate c = (true, a2) ∧
        a2.candidatePairs = (a.addRemoteCandidate c).2.candidatePairs ∧
        a2.localCandidates = (a.addRemoteCandidate c).2.localCandidates) :=
  ⟨addLocal_second_rejected, addRemote_second_no_change⟩

theorem C9_idempotent_add_witness :
    (((baseAgent.addLocalCandidate (Candidate.host addrV4a)).2).addLocalCandidate
      (Candidate.host addrV4a) =
      (false, (baseAgent.addLocalCandidate (Candidate.host addrV4a)).2)) ∧
    (∃ a2, ((baseAgent.addRemoteCandidate (Candidate.host addrV4b)).2).addRemoteCandidate
        (Candidate.host addrV4b) = (true, a2) ∧
      a2.candidatePairs =
        (baseAgent.addRemoteCandidate (Candidate.host addrV4b)).2.candidatePairs ∧
      a2.localCandidates =
        (baseAgent.addRemoteCandidate (Candidate.host addrV4b)).2.localCandidates) :=
  ⟨C9_idempotent_add.1 baseAgent (Candidate.host addrV4a) (by decide) rfl
      (fun v hv => absurd hv (List.not_mem_nil v)) (by decide),
   C9_idempotent_add.2 baseAgent (Candidate.host addrV4b) (by decide) (by decide)
      (fun v hv => absurd hv (List.not_mem_nil v)) (by decide) (by decide)⟩
